import Mathlib

/-!
Verification of the evaluation-pipeline core of `ai_validator.py`.

The embedding is shallow: Python strings are `List Char`, Python dict/JSON
values are the inductive `Json`, the project directory tree is `FSNode`,
Python exceptions are the `Except PyErr` monad, and the handful of library
primitives the code relies on (`str.strip`, `str.replace`, `str.format`,
`json.loads`, `json.dumps`, `os.walk`, `os.path.splitext`, `list.sort`) are
modelled by executable Lean functions defined below, faithful to CPython
semantics on the inputs the program can produce (documented per definition).
-/

namespace AiValidator

/-- Shorthand: a Lean string literal as the `List Char` representation used
throughout the embedding. -/
def cs (s : String) : List Char := s.toList

/-- Python `str.strip` whitespace test (ASCII whitespace; the strings this
program strips are produced from ASCII-relevant text). -/
def pyWsChar (c : Char) : Bool :=
  c == ' ' || c == '\t' || c == '\n' || c == '\r' || c == '\x0b' || c == '\x0c'

/-- Left part of Python `str.strip`. -/
def pyStripLeft (s : List Char) : List Char := s.dropWhile pyWsChar

/-- Right part of Python `str.strip`. -/
def pyStripRight (s : List Char) : List Char := (s.reverse.dropWhile pyWsChar).reverse

/-- Python `str.strip()`. -/
def pyStrip (s : List Char) : List Char := pyStripRight (pyStripLeft s)

/-- Index of the first occurrence of `c` (Python `str.index`, as an `Option`). -/
def firstIdxOf? (c : Char) : List Char → Option Nat
  | [] => none
  | d :: r => if d = c then some 0 else (firstIdxOf? c r).map (· + 1)

/-- Index of the last occurrence of `c` (Python `str.rindex`, as an `Option`). -/
def lastIdxOf? (c : Char) (s : List Char) : Option Nat :=
  (firstIdxOf? c s.reverse).map (fun k => s.length - 1 - k)

/-- Python slice `s[a:b]` for `0 ≤ a ≤ b` (the only case the program uses). -/
def pySlice (s : List Char) (a b : Nat) : List Char := (s.drop a).take (b - a)

/-- Python `pat in s` (literal substring test). -/
def containsSub (pat : List Char) : List Char → Bool
  | [] => pat.isEmpty
  | c :: s => pat.isPrefixOf (c :: s) || containsSub pat s

/-- Worker for `pyReplace`; the fuel starts at the string length, which bounds
the number of loop steps since every step consumes at least one character. -/
def pyReplaceGo (pat rep : List Char) : Nat → List Char → List Char
  | _, [] => []
  | 0, s => s
  | Nat.succ fuel, c :: s =>
    if !pat.isEmpty && pat.isPrefixOf (c :: s) then
      rep ++ pyReplaceGo pat rep fuel ((c :: s).drop pat.length)
    else
      c :: pyReplaceGo pat rep fuel s

/-- Python `s.replace(pat, rep)`: left-to-right, non-overlapping (the program
only calls it with the non-empty pattern of three backticks). -/
def pyReplace (s pat rep : List Char) : List Char := pyReplaceGo pat rep s.length s

/-- Python/JSON values as produced by `json.loads`: numbers keep their source
token (their numeric value is never consumed by this program), object member
order is insertion order and duplicate keys overwrite in place, as for a
Python `dict`. -/
inductive Json where
  | null
  | bool (b : Bool)
  | num (tok : List Char)
  | str (s : List Char)
  | arr (elems : List Json)
  | obj (members : List (List Char × Json))

/-- Python `dict` lookup on the association-list representation. -/
def objGet (kvs : List (List Char × Json)) (k : List Char) : Option Json :=
  match kvs with
  | [] => none
  | (k', v) :: rest => if k' = k then some v else objGet rest k

/-- Python `dict` assignment `d[k] = v`: replaces in place if the key exists
(keeping its position), otherwise appends. -/
def objInsert (kvs : List (List Char × Json)) (k : List Char) (v : Json) :
    List (List Char × Json) :=
  match kvs with
  | [] => [(k, v)]
  | (k', v') :: rest => if k' = k then (k, v) :: rest else (k', v') :: objInsert rest k v

/-! ### A model of `json.loads` (fuel-based recursive-descent parser) -/

/-- JSON inter-token whitespace (as in CPython's `json` module). -/
def jsonWsChar (c : Char) : Bool := c == ' ' || c == '\t' || c == '\n' || c == '\r'

def skipJWs (s : List Char) : List Char := s.dropWhile jsonWsChar

def hexDigitVal (c : Char) : Option Nat :=
  let n := c.toNat
  if 48 ≤ n && n ≤ 57 then some (n - 48)
  else if 97 ≤ n && n ≤ 102 then some (n - 97 + 10)
  else if 65 ≤ n && n ≤ 70 then some (n - 65 + 10)
  else none

def jsonUnescape : Char → Option Char
  | '"' => some '"'
  | '\\' => some '\\'
  | '/' => some '/'
  | 'b' => some '\x08'
  | 'f' => some '\x0c'
  | 'n' => some '\n'
  | 'r' => some '\r'
  | 't' => some '\t'
  | _ => none

/-- String body after the opening quote. Raw control characters are rejected
(CPython strict mode); surrogate-pair recombination is not modelled (no input
in this development uses it). -/
def parseJStr : List Char → Option (List Char × List Char)
  | '"' :: rest => some ([], rest)
  | '\\' :: 'u' :: a :: b :: c :: d :: rest =>
    match hexDigitVal a, hexDigitVal b, hexDigitVal c, hexDigitVal d with
    | some va, some vb, some vc, some vd =>
      (parseJStr rest).map
        (fun p => (Char.ofNat (((va * 16 + vb) * 16 + vc) * 16 + vd) :: p.1, p.2))
    | _, _, _, _ => none
  | '\\' :: e :: rest =>
    match jsonUnescape e with
    | some ch => (parseJStr rest).map (fun p => (ch :: p.1, p.2))
    | none => none
  | c :: rest =>
    if c.toNat < 32 then none
    else (parseJStr rest).map (fun p => (c :: p.1, p.2))
  | [] => none

/-- Optional fraction and exponent after the integer part of a number token,
with maximal munch as in the `json` module's NUMBER_RE. -/
def jNumTail (tok : List Char) (rest : List Char) : List Char × List Char :=
  let p1 : List Char × List Char :=
    match rest with
    | '.' :: r =>
      let ds := r.takeWhile Char.isDigit
      if ds.isEmpty then (tok, rest) else (tok ++ '.' :: ds, r.drop ds.length)
    | _ => (tok, rest)
  match p1.2 with
  | e :: r =>
    if e = 'e' || e = 'E' then
      let sgn : List Char × List Char :=
        match r with
        | '+' :: rr => (['+'], rr)
        | '-' :: rr => (['-'], rr)
        | _ => ([], r)
      let ds := sgn.2.takeWhile Char.isDigit
      if ds.isEmpty then p1 else (p1.1 ++ e :: (sgn.1 ++ ds), sgn.2.drop ds.length)
    else p1
  | [] => p1

/-- A JSON number token: optional minus, `0` or a non-zero-led digit run, then
`jNumTail`. Leading zeros are rejected exactly as by the `json` module. -/
def parseJNum (s : List Char) : Option (List Char × List Char) :=
  let p : List Char × List Char :=
    match s with
    | '-' :: r => (['-'], r)
    | _ => ([], s)
  match p.2 with
  | [] => none
  | c :: r =>
    if c = '0' then some (jNumTail (p.1 ++ [c]) r)
    else if c.isDigit then
      let ds := r.takeWhile Char.isDigit
      some (jNumTail (p.1 ++ c :: ds) (r.drop ds.length))
    else none

mutual

/-- One JSON value starting at the head of the input (callers have already
skipped whitespace). -/
def parseJValue : Nat → List Char → Option (Json × List Char)
  | 0, _ => none
  | Nat.succ _, [] => none
  | Nat.succ fuel, c :: r =>
    if c = 'n' then
      match r with
      | 'u' :: 'l' :: 'l' :: r2 => some (.null, r2)
      | _ => none
    else if c = 't' then
      match r with
      | 'r' :: 'u' :: 'e' :: r2 => some (.bool true, r2)
      | _ => none
    else if c = 'f' then
      match r with
      | 'a' :: 'l' :: 's' :: 'e' :: r2 => some (.bool false, r2)
      | _ => none
    else if c = '"' then (parseJStr r).map (fun p => (.str p.1, p.2))
    else if c = '\x7b' then parseJObjBody fuel (skipJWs r)
    else if c = '[' then parseJArrBody fuel (skipJWs r)
    else if c = '-' || c.isDigit then (parseJNum (c :: r)).map (fun p => (.num p.1, p.2))
    else none

/-- Object body after the opening brace (whitespace already skipped). -/
def parseJObjBody : Nat → List Char → Option (Json × List Char)
  | 0, _ => none
  | Nat.succ fuel, s =>
    match s with
    | '\x7d' :: r => some (.obj [], r)
    | _ => parseJObjMembers fuel s []

/-- One or more `"key": value` members separated by commas. -/
def parseJObjMembers : Nat → List Char → List (List Char × Json) →
    Option (Json × List Char)
  | 0, _, _ => none
  | Nat.succ fuel, s, acc =>
    match s with
    | '"' :: r =>
      match parseJStr r with
      | none => none
      | some (k, rest) =>
        match skipJWs rest with
        | ':' :: rest2 =>
          match parseJValue fuel (skipJWs rest2) with
          | none => none
          | some (v, rest3) =>
            match skipJWs rest3 with
            | ',' :: rest4 => parseJObjMembers fuel (skipJWs rest4) (objInsert acc k v)
            | '\x7d' :: rest4 => some (.obj (objInsert acc k v), rest4)
            | _ => none
        | _ => none
    | _ => none

/-- Array body after the opening bracket (whitespace already skipped). -/
def parseJArrBody : Nat → List Char → Option (Json × List Char)
  | 0, _ => none
  | Nat.succ fuel, s =>
    match s with
    | ']' :: r => some (.arr [], r)
    | _ => parseJArrElems fuel s []

/-- One or more array elements separated by commas. -/
def parseJArrElems : Nat → List Char → List Json → Option (Json × List Char)
  | 0, _, _ => none
  | Nat.succ fuel, s, acc =>
    match parseJValue fuel s with
    | none => none
    | some (v, rest) =>
      match skipJWs rest with
      | ',' :: r2 => parseJArrElems fuel (skipJWs r2) (acc ++ [v])
      | ']' :: r2 => some (.arr (acc ++ [v]), r2)
      | _ => none

end

/-- Model of `json.loads`: parse one value with surrounding whitespace and
require the whole input to be consumed; `none` models `JSONDecodeError`. The
fuel is an upper bound on the recursion (each recursive call consumes input),
so it never cuts a parse short. -/
def jsonParse (s : List Char) : Option Json :=
  match parseJValue (3 * s.length + 8) (skipJWs s) with
  | some (v, rest) => if skipJWs rest = [] then some v else none
  | none => none

/-! ### Filesystem model and the File Selector (`gather_files`) -/

mutual

/-- A directory tree. A file records its on-disk size and, when it can be
opened and decoded (with `errors='replace'`, which never fails once the file
is open), its text content; `none` models a file whose `open`/`read` raises. -/
inductive FSNode where
  | file (size : Nat) (content : Option (List Char))
  | dir (entries : FSEntries)

/-- A directory's named children, in `os.scandir` order (which is what
`os.walk` reports and which is fixed for an unchanged tree). -/
inductive FSEntries where
  | nil
  | cons (name : List Char) (node : FSNode) (rest : FSEntries)

end

/-- Build a directory-entry listing from a plain list (notation helper for
concrete trees). -/
def entriesOf : List (List Char × FSNode) → FSEntries
  | [] => .nil
  | (n, t) :: r => .cons n t (entriesOf r)

/-- The non-directory children of a directory, in listing order (the `files`
component that `os.walk` yields). -/
def filesOfEntries : FSEntries → List (List Char × Nat × Option (List Char))
  | .nil => []
  | .cons n (.file sz ct) r => (n, sz, ct) :: filesOfEntries r
  | .cons _ (.dir _) r => filesOfEntries r

/-- The denylist pruned from `dirs` in `gather_files`. -/
def isPrunedDirName (n : List Char) : Bool :=
  n = cs ".git" || n = cs "node_modules" || n = cs "venv" || n = cs "__pycache__"

/-- `os.path.relpath(os.path.join(root, pfx, name), root)` with `/` as
separator: the relative path of `name` under the relative directory `pfx`. -/
def relOf (pfx name : List Char) : List Char :=
  if pfx.isEmpty then name else pfx ++ '/' :: name

/-- The walk below one directory: for every non-pruned subdirectory, in
listing order, its `(relative path, files)` pair followed by the walk below
it — together with `pyWalk` this is exactly the pruned top-down `os.walk`. -/
def walkSubdirs (pfx : List Char) : FSEntries →
    List (List Char × List (List Char × Nat × Option (List Char)))
  | .nil => []
  | .cons _ (.file _ _) rest => walkSubdirs pfx rest
  | .cons name (.dir es) rest =>
    (if isPrunedDirName name then []
     else (relOf pfx name, filesOfEntries es) :: walkSubdirs (relOf pfx name) es) ++
      walkSubdirs pfx rest

/-- The sequence of `(directory relative path, its files)` pairs that the
pruned `os.walk` of `gather_files` yields, top-down, subdirectories in
listing order. -/
def pyWalk (pfx : List Char) (es : FSEntries) :
    List (List Char × List (List Char × Nat × Option (List Char))) :=
  (pfx, filesOfEntries es) :: walkSubdirs pfx es

/-- All files the pruned walk can see, with their walk-relative paths: the
ground truth that Selector output is checked against. -/
def walkFiles (root : FSNode) : List (List Char × Nat × Option (List Char)) :=
  match root with
  | .file _ _ => []
  | .dir es =>
    (pyWalk [] es).flatMap (fun d => d.2.map (fun f => (relOf d.1 f.1, f.2.1, f.2.2)))

/-- `os.path.splitext(name)[1]`: the extension starts at the last dot, unless
every character before it in the name is itself a dot (so `.bashrc` has no
extension), exactly as in CPython's `posixpath`. -/
def splitextExt (name : List Char) : List Char :=
  match lastIdxOf? '.' name with
  | none => []
  | some i => if (name.take i).any (fun c => c ≠ '.') then name.drop i else []

/-- Whether the extension filter excludes `name` (`include_exts and
ext.lower() not in include_exts`). -/
def extExcluded (exts : Option (List (List Char))) (name : List Char) : Bool :=
  match exts with
  | none => false
  | some l => decide ((splitextExt name).map Char.toLower ∉ l)

/-- The inner `for fname in files` loop of `gather_files`: break (returning
the accumulator unchanged) once the count ceiling is reached, otherwise skip
excluded extensions, files over the byte ceiling and unreadable files, and
append the rest. -/
def gatherLoc (exts : Option (List (List Char))) (maxF maxB : Nat) (pfx : List Char) :
    List (List Char × Nat × Option (List Char)) → List (List Char × List Char) →
    List (List Char × List Char)
  | [], acc => acc
  | (name, sz, ct) :: rest, acc =>
    if maxF ≤ acc.length then acc
    else if extExcluded exts name then gatherLoc exts maxF maxB pfx rest acc
    else if maxB < sz then gatherLoc exts maxF maxB pfx rest acc
    else
      match ct with
      | none => gatherLoc exts maxF maxB pfx rest acc
      | some c => gatherLoc exts maxF maxB pfx rest (acc ++ [(relOf pfx name, c)])

/-- The outer `for root, dirs, files in os.walk(...)` loop: after each
directory's files, stop the walk if the count ceiling is reached. -/
def collectLoop (exts : Option (List (List Char))) (maxF maxB : Nat) :
    List (List Char × List (List Char × Nat × Option (List Char))) →
    List (List Char × List Char) → List (List Char × List Char)
  | [], acc => acc
  | (pfx, fs) :: rest, acc =>
    let acc1 := gatherLoc exts maxF maxB pfx fs acc
    if maxF ≤ acc1.length then acc1 else collectLoop exts maxF maxB rest acc1

/-- Priority component of the sort key: `0` iff the lowercased relative path
starts with `readme`. -/
def readmeFlag (p : List Char) : Nat :=
  if (cs "readme").isPrefixOf (p.map Char.toLower) then 0 else 1

/-- Python string `<=` (lexicographic by code point). -/
def pathLe : List Char → List Char → Bool
  | [], _ => true
  | _ :: _, [] => false
  | a :: as, b :: bs => if a = b then pathLe as bs else decide (a.toNat < b.toNat)

/-- The sort key order of `gather_files`: ascending in
`(readme-priority flag, path)`. -/
def entryLe (a b : List Char × List Char) : Bool :=
  readmeFlag a.1 < readmeFlag b.1 ||
    (readmeFlag a.1 = readmeFlag b.1 && pathLe a.1 b.1)

/-- The same order as a decidable relation, for the sort. -/
def entryRel (a b : List Char × List Char) : Prop := entryLe a b = true

instance : DecidableRel entryRel := fun a b => instDecidableEqBool (entryLe a b) true

/-- `gather_files(project_root, include_exts, max_files, max_size_bytes)`.
An entry is the pair `(relative path, content)` of the source's dict with
keys `path` and `content`. An empty `include_exts` list is falsy in Python,
hence equivalent to `None`. `os.walk` on a non-directory root yields nothing.
The final `collected.sort(key=...)` is modelled by the stable insertion sort
over the key order `entryRel` (Python's sort is stable; moreover the sort key
is injective on the collected paths, so any correct sort agrees with it). -/
def gather_files (root : FSNode) (include_exts : Option (List (List Char)))
    (maxF maxB : Nat) : List (List Char × List Char) :=
  let exts : Option (List (List Char)) :=
    match include_exts with
    | some l => if l.isEmpty then none else some l
    | none => none
  let walked :=
    match root with
    | .dir es => pyWalk [] es
    | .file _ _ => []
  List.insertionSort entryRel (collectLoop exts maxF maxB walked [])

/-! ### Python exceptions, `str.format`, and the Prompt Builder -/

/-- The Python exceptions this program can raise, with their message text. -/
inductive PyErr where
  | valueError (msg : List Char)
  | keyError (msg : List Char)
  | runtimeError (msg : List Char)
  | attributeError (msg : List Char)
  | typeError (msg : List Char)
  | osError (msg : List Char)
  | jsonDecodeError (msg : List Char)
deriving DecidableEq

/-- Scan a format spec to its matching closing brace, counting nested braces,
returning the remainder of the string after the close (as CPython's markup
iterator does before the field is looked up). -/
def scanSpec : Nat → List Char → Option (List Char)
  | _, [] => none
  | depth, '\x7d' :: r => if depth = 0 then some r else scanSpec (depth - 1) r
  | depth, '\x7b' :: r => scanSpec (depth + 1) r
  | depth, _ :: r => scanSpec depth r

/-- Keyword lookup for `str.format`. -/
def lookupArg (args : List (List Char × List Char)) (k : List Char) : Option (List Char) :=
  (args.find? (fun p => p.1 == k)).map (fun p => p.2)

/-- Worker for `pyFormat`, with the output built in reverse in `acc` (so
every recursive call is a tail call). Fuel bounds the loop (each step
consumes at least one template character, so `length + 1` is always
enough). -/
def pyFormatGo (args : List (List Char × List Char)) :
    Nat → List Char → List Char → Except PyErr (List Char)
  | _, acc, [] => .ok acc.reverse
  | 0, acc, rest => .ok (acc.reverse ++ rest)
  | Nat.succ fuel, acc, '\x7b' :: '\x7b' :: r => pyFormatGo args fuel ('\x7b' :: acc) r
  | Nat.succ fuel, acc, '\x7d' :: '\x7d' :: r => pyFormatGo args fuel ('\x7d' :: acc) r
  | Nat.succ _, _, '\x7d' :: _ =>
    .error (.valueError (cs "Single \x27\x7d\x27 encountered in format string"))
  | Nat.succ fuel, acc, '\x7b' :: r =>
    let name := r.takeWhile
      (fun c => !(c = '.' || c = '[' || c = ':' || c = '!' || c = '\x7b' || c = '\x7d'))
    match r.drop name.length with
    | '\x7b' :: _ => .error (.valueError (cs "unexpected \x27\x7b\x27 in field name"))
    | '.' :: _ => .error (.valueError (cs "attribute access in a field name is not used by this program"))
    | '[' :: _ => .error (.valueError (cs "index access in a field name is not used by this program"))
    | '!' :: _ => .error (.valueError (cs "a conversion specifier is not used by this program"))
    | ':' :: specRest =>
      match scanSpec 0 specRest with
      | none => .error (.valueError (cs "expected \x27\x7d\x27 before end of string"))
      | some afterClose =>
        match lookupArg args name with
        | none => .error (.keyError name)
        | some v => pyFormatGo args fuel (v.reverse ++ acc) afterClose
    | '\x7d' :: rest =>
      match lookupArg args name with
      | none => .error (.keyError name)
      | some v => pyFormatGo args fuel (v.reverse ++ acc) rest
    | _ => .error (.valueError (cs "expected \x27\x7d\x27 before end of string"))
  | Nat.succ fuel, acc, c :: r => pyFormatGo args fuel (c :: acc) r

/-- Model of `template.format(**kwargs)`. Literal text is copied, doubled
braces are unescaped, a replacement field is parsed in full (name, then a
format spec scanned to its matching brace) and then its name is looked up,
raising `KeyError` for an unknown name — the order CPython uses, which is
what this program's template exercises. Applying a non-empty format spec to a
found value is not modelled (no reachable call formats a found value with a
spec). -/
def pyFormat (tmpl : List Char) (args : List (List Char × List Char)) :
    Except PyErr (List Char) :=
  pyFormatGo args (tmpl.length + 1) [] tmpl

/-- The text of `PROMPT_TEMPLATE` before its first `\x7b` (the brace opening
the JSON shape example): the whole instruction preamble, up to and including
the two spaces of the line the brace sits on. -/
def TEMPLATE_PRE : List Char :=
  cs (String.intercalate "\n" [
    "",
    "You are an impartial automated code reviewer. You will be given:",
    "1) a `criteria` JSON mapping evaluation categories to integer weights (sum may be 100).",
    "2) a list of files in the candidate\x27s repository (file path + file contents, limited).",
    "3) the target role to evaluate: one of [\"intern\", \"sde\", \"architect\"].",
    "",
    "Task:",
    "- For each category in the criteria for the requested role, give the following in clear subtopics and points:",
    "  - a numeric score from 0 to the category weight (same units as weights provided),",
    "  - a concise written justification (2-3 sentences) clearly pointing out where it is missing or done well with an code snipet showing the expectation,",
    "  - zero or more evidence items: each evidence item must reference a file path and (if applicable) a short quoted code snippet or line-range and explanation.",
    "- Produce a final `total_score` (sum of category scores).",
    "- Provide a short `overall_summary` (2-3 sentences) and a list of `suggested_actions` (3-6 actionable improvements).",
    "- STRICTLY return a single JSON object (no extra commentary). The keys must be:",
    "  "])

/-- What `str.format` parses as the field name of the template's first
replacement field: the text from just after the first `\x7b` up to the first
`:` — a newline, four spaces, and `"role"` with its quotes. -/
def TEMPLATE_NAME : List Char := '\n' :: cs "    \"role\""

/-- What `str.format` parses as that field's format spec: the text after the
`:`, up to (excluding) the brace matching the first `\x7b` — the rest of the
JSON shape example, through the two spaces of its closing line. -/
def TEMPLATE_SPEC : List Char :=
  cs (String.intercalate "\n" [
    " \"<role>\",",
    "    \"criteria_scores\": \x7b",
    "       \"<category>\": \x7b\"score\": <number>, \"justification\": \"<text>\", \"evidence\": [\x7b\"path\":\"...\",\"snippet\":\"...\",\"note\":\"...\"\x7d , ...] \x7d,",
    "       ...",
    "    \x7d,",
    "    \"total_score\": <number>,",
    "    \"overall_summary\": \"<text>\",",
    "    \"suggested_actions\": [\"...\",\"...\"]",
    "  "])

/-- The template text after the brace matching the first `\x7b`: the
remaining constraints and the three real placeholders. -/
def TEMPLATE_TAIL : List Char :=
  cs (String.intercalate "\n" [
    "",
    "",
    "Important constraints for the model:",
    "- Do not hallucinate file names or snippets. Only cite evidence found in the provided file list.",
    "- If a category cannot be judged from the given files, give a conservative mid/low score and say \"insufficient evidence\" in justification.",
    "- Keep each justification short (<=70 words).",
    "- Keep JSON strictly valid.",
    "",
    "Now evaluate. Here are the inputs:",
    "",
    "CRITERIA_JSON:",
    "\x7bcriteria_json\x7d",
    "",
    "ROLE:",
    "\x7brole\x7d",
    "",
    "FILES:",
    "\x7bfiles_dump\x7d",
    ""])

/-- The module's `PROMPT_TEMPLATE` string, transcribed verbatim (a Python
triple-quoted string: it starts and ends with a newline). It is assembled
here from the four segments above — preamble, first brace, field name,
colon, format-spec text, matching close brace, remainder — whose
concatenation is character-for-character the Python literal. -/
def PROMPT_TEMPLATE : List Char :=
  TEMPLATE_PRE ++ '\x7b' :: (TEMPLATE_NAME ++ ':' :: (TEMPLATE_SPEC ++ '\x7d' :: TEMPLATE_TAIL))

/-- `json.dumps` string escaping (the escapes that can occur in this
program's criteria files; `ensure_ascii` escaping of non-ASCII characters is
not modelled — the dumped text is only ever embedded in the prompt, which no
checked property inspects). -/
def jsonEscChar (c : Char) : List Char :=
  if c = '"' then ['\\', '"']
  else if c = '\\' then ['\\', '\\']
  else if c = '\n' then ['\\', 'n']
  else if c = '\t' then ['\\', 't']
  else if c = '\r' then ['\\', 'r']
  else if c = '\x08' then ['\\', 'b']
  else if c = '\x0c' then ['\\', 'f']
  else [c]

def jsonEscapeStr (s : List Char) : List Char := s.flatMap jsonEscChar

def indentSp (n : Nat) : List Char := List.replicate n ' '

mutual

/-- Model of `json.dumps(v, indent=2)` at indentation level `ind`. -/
def jsonDumpVal (ind : Nat) : Json → List Char
  | .null => cs "null"
  | .bool true => cs "true"
  | .bool false => cs "false"
  | .num t => t
  | .str s => '"' :: (jsonEscapeStr s ++ ['"'])
  | .arr [] => cs "[]"
  | .arr (x :: xs) =>
    '[' :: (jsonDumpItems (ind + 2) (x :: xs) ++ '\n' :: (indentSp ind ++ [']']))
  | .obj [] => cs "\x7b\x7d"
  | .obj (m :: ms) =>
    '\x7b' :: (jsonDumpMembers (ind + 2) (m :: ms) ++ '\n' :: (indentSp ind ++ ['\x7d']))

def jsonDumpItems (ind : Nat) : List Json → List Char
  | [] => []
  | [x] => '\n' :: (indentSp ind ++ jsonDumpVal ind x)
  | x :: y :: xs =>
    '\n' :: (indentSp ind ++ jsonDumpVal ind x) ++ ',' :: jsonDumpItems ind (y :: xs)

def jsonDumpMembers (ind : Nat) : List (List Char × Json) → List Char
  | [] => []
  | [(k, v)] =>
    '\n' :: (indentSp ind ++ '"' :: (jsonEscapeStr k ++ '"' :: ':' :: ' ' :: jsonDumpVal ind v))
  | (k, v) :: m :: ms =>
    '\n' :: (indentSp ind ++ '"' :: (jsonEscapeStr k ++ '"' :: ':' :: ' ' :: jsonDumpVal ind v)) ++
      ',' :: jsonDumpMembers ind (m :: ms)

end

/-- The middle-elision marker inserted by `build_prompt`. -/
def SNIPPED_MARKER : List Char := cs "\n\n...<<SNIPPED MIDDLE>>...\n\n"

/-- The fence pattern `build_prompt` escapes. -/
def FENCE : List Char := cs "```"

/-- Its replacement: backticks separated by zero-width spaces. -/
def FENCE_ESCAPED : List Char := cs "`​`​`"

/-- The per-file truncation of `build_prompt`: over 6000 characters, keep the
first and last 3000 around the elision marker. -/
def limitFileContent (content : List Char) : List Char :=
  if 6000 < content.length then
    content.take 3000 ++ SNIPPED_MARKER ++ content.drop (content.length - 3000)
  else content

/-- One file's block in the prompt dump:
`---FILE: <path>---\n<truncated, fence-escaped content>\n`. -/
def renderFileBlock (f : List Char × List Char) : List Char :=
  cs "---FILE: " ++ f.1 ++ cs "---\n" ++
    pyReplace (limitFileContent f.2) FENCE FENCE_ESCAPED ++ cs "\n"

/-- Python `"\n".join`. -/
def joinWithNL : List (List Char) → List Char
  | [] => []
  | [x] => x
  | x :: y :: rest => x ++ '\n' :: joinWithNL (y :: rest)

/-- `build_prompt(criteria, role, file_entries)`. The first component of the
result is the entries list as the caller still sees it after the call (the
loop reads `f['content']` into a local and never writes back, so the list
passes through); the second is the formatted prompt capped at 900000
characters, or the exception `str.format` raises. -/
def build_prompt (criteria : Json) (role : List Char)
    (file_entries : List (List Char × List Char)) :
    List (List Char × List Char) × Except PyErr (List Char) :=
  let processed := file_entries.map (fun f => (f, renderFileBlock f))
  let files_dump := joinWithNL (processed.map (fun p => p.2))
  let promptE :=
    (pyFormat PROMPT_TEMPLATE
      [(cs "criteria_json", jsonDumpVal 0 criteria),
       (cs "role", role),
       (cs "files_dump", files_dump)]).map (fun p => p.take 900000)
  (processed.map (fun p => p.1), promptE)

/-! ### The Evidence Verifier (`verify_evidence`) -/

/-- Split a path on `/`, dropping empty components (so `a//b` behaves like
`a/b`, as `os.path.isfile` does). `.`/`..` components are not normalised; no
input in this development uses them. -/
def splitSlash : List Char → List Char → List (List Char)
  | [], cur => [cur.reverse]
  | '/' :: r, cur => cur.reverse :: splitSlash r []
  | c :: r, cur => splitSlash r (c :: cur)

def lookupEntry : FSEntries → List Char → Option FSNode
  | .nil, _ => none
  | .cons n' t r, n => if n' == n then some t else lookupEntry r n

/-- Walk the components of a relative path down the tree; `some (size,
content)` exactly when `os.path.isfile(os.path.join(root, path))` holds. -/
def resolveGo : List (List Char) → FSNode → Option (Nat × Option (List Char))
  | [], _ => none
  | [c], .dir es =>
    match lookupEntry es c with
    | some (.file sz ct) => some (sz, ct)
    | _ => none
  | c :: c2 :: rest, .dir es =>
    match lookupEntry es c with
    | some (.dir es') => resolveGo (c2 :: rest) (.dir es')
    | _ => none
  | _ :: _, .file _ _ => none

def resolveFile (root : FSNode) (p : List Char) : Option (Nat × Option (List Char)) :=
  resolveGo ((splitSlash p []).filter (fun c => !c.isEmpty)) root

/-- Whether a JSON number token is falsy in Python (its value is zero): every
mantissa digit is `0`. -/
def numTokIsZero (t : List Char) : Bool :=
  let t1 := match t with
    | '-' :: r => r
    | _ => t
  let mant := t1.takeWhile (fun c => !(c = 'e' || c = 'E'))
  mant.all (fun c => c = '0' || c = '.')

def NOT_FOUND_MARKER : List Char := cs " [EVIDENCE NOT FOUND]"

/-- The body of `verify_evidence`'s inner loop for one evidence item `ev`:
`path = ev.get('path')`, `snippet = ev.get('snippet', '')`, join the path if
truthy (`TypeError` if truthy but not a string), test the file and the
trimmed snippet (any exception inside the `try` just leaves the item
unverified), copy the item, set `verified`, and on failure re-write `note`
with the appended marker, stripped (`TypeError` if a present `note` is not a
string). A non-dict item raises `AttributeError` at `ev.get`. -/
def verifyOne (root : FSNode) (ev : Json) : Except PyErr Json :=
  match ev with
  | .obj kvs =>
    let pathV := objGet kvs (cs "path")
    let snippetV := (objGet kvs (cs "snippet")).getD (.str [])
    let fullpathE : Except PyErr (Option (List Char)) :=
      match pathV with
      | none => .ok none
      | some .null => .ok none
      | some (.str p) => .ok (if p.isEmpty then none else some p)
      | some (.bool false) => .ok none
      | some (.bool true) => .error (.typeError (cs "os.path.join on a non-string path"))
      | some (.num t) =>
        if numTokIsZero t then .ok none
        else .error (.typeError (cs "os.path.join on a non-string path"))
      | some (.arr l) =>
        if l.isEmpty then .ok none
        else .error (.typeError (cs "os.path.join on a non-string path"))
      | some (.obj l) =>
        if l.isEmpty then .ok none
        else .error (.typeError (cs "os.path.join on a non-string path"))
    match fullpathE with
    | .error e => .error e
    | .ok fp =>
      let verified : Bool :=
        match fp with
        | none => false
        | some p =>
          match resolveFile root p with
          | none => false
          | some (_, none) => false
          | some (_, some text) =>
            match snippetV with
            | .str s => !(pyStrip s).isEmpty && containsSub (pyStrip s) text
            | _ => false
      let kvs1 := objInsert kvs (cs "verified") (.bool verified)
      if verified then .ok (.obj kvs1)
      else
        match (objGet kvs1 (cs "note")).getD (.str []) with
        | .str n =>
          .ok (.obj (objInsert kvs1 (cs "note") (.str (pyStrip (n ++ NOT_FOUND_MARKER)))))
        | _ => .error (.typeError (cs "can only concatenate str to str"))
  | _ => .error (.attributeError (cs "object has no attribute get"))

/-- Python iteration over the `evidence` value: lists iterate their elements;
an empty dict or string iterates nothing; a non-empty dict or string yields
strings whose `.get` raises `AttributeError`; anything else is not iterable
(`TypeError`). -/
def evidenceList : Json → Except PyErr (List Json)
  | .arr xs => .ok xs
  | .obj [] => .ok []
  | .str [] => .ok []
  | .obj (_ :: _) => .error (.attributeError (cs "object has no attribute get"))
  | .str (_ :: _) => .error (.attributeError (cs "object has no attribute get"))
  | _ => .error (.typeError (cs "object is not iterable"))

/-- The inner loop over a category's evidence items. -/
def verifyEvs (root : FSNode) : List Json → Except PyErr (List Json)
  | [] => .ok []
  | ev :: rest =>
    match verifyOne root ev with
    | .error e => .error e
    | .ok ev' =>
      match verifyEvs root rest with
      | .error e => .error e
      | .ok rest' => .ok (ev' :: rest')

/-- The loop over `criteria_scores.items()`: each category's `details` must
be a dict (`details.get` otherwise raises `AttributeError`); its rebuilt
evidence list is written back into the same `details` dict. -/
def verifyCats (root : FSNode) : List (List Char × Json) →
    Except PyErr (List (List Char × Json))
  | [] => .ok []
  | (cat, d) :: rest =>
    match d with
    | .obj dkvs =>
      match evidenceList ((objGet dkvs (cs "evidence")).getD (.arr [])) with
      | .error e => .error e
      | .ok evs =>
        match verifyEvs root evs with
        | .error e => .error e
        | .ok evs' =>
          match verifyCats root rest with
          | .error e => .error e
          | .ok rest' => .ok ((cat, .obj (objInsert dkvs (cs "evidence") (.arr evs'))) :: rest')
    | _ => .error (.attributeError (cs "object has no attribute get"))

/-- `verify_evidence(project_root, report)`:
`report.get('criteria_scores', {})` (so a non-dict report raises
`AttributeError`, and a present non-dict value raises at `.items()`), the
category loop, then `report['criteria_scores'] = criteria_scores`. -/
def verify_evidence (root : FSNode) (report : Json) : Except PyErr Json :=
  match report with
  | .obj rkvs =>
    match (objGet rkvs (cs "criteria_scores")).getD (.obj []) with
    | .obj cats =>
      match verifyCats root cats with
      | .error e => .error e
      | .ok cats' => .ok (.obj (objInsert rkvs (cs "criteria_scores") (.obj cats')))
    | _ => .error (.attributeError (cs "object has no attribute items"))
  | _ => .error (.attributeError (cs "object has no attribute get"))

/-! ### The Response Parser and the Pipeline Orchestrator -/

/-- The diagnostic message raised when both extraction strategies fail
(`text` is the stripped raw output; the trailing JSONDecodeError text is
abstracted by a fixed marker). -/
def parseFailMsg (text : List Char) : List Char :=
  cs "Failed to parse JSON from model output. Raw output first 2000 chars:\n" ++
    text.take 2000 ++ cs "\n\nError:<JSONDecodeError>"

/-- Lines 182-194 of `validate_project`: strip the raw output, try the
substring from the first brace to the last brace (any failure — a missing
brace or a parse error — falls through), then the whole stripped text, then
raise the diagnostic `RuntimeError`. -/
def parse_model_output (raw : List Char) : Except PyErr Json :=
  let text := pyStrip raw
  let fallb : Except PyErr Json :=
    match jsonParse text with
    | some v => .ok v
    | none => .error (.runtimeError (parseFailMsg text))
  match firstIdxOf? '\x7b' text, lastIdxOf? '\x7d' text with
  | some i, some j =>
    match jsonParse (pySlice text i (j + 1)) with
    | some v => .ok v
    | none => fallb
  | _, _ => fallb

/-- Lines 182-196 of `validate_project`: parse the raw model output, then
verify the evidence of the parsed result against the project tree. -/
def handle_model_output (root : FSNode) (raw : List Char) : Except PyErr Json :=
  match parse_model_output raw with
  | .error e => .error e
  | .ok result => verify_evidence root result

/-- `read_criteria(path)`: the criteria source is modelled as what the file
read yields (`none` for an unreadable file, which raises `OSError`), then
`json.load` parses it. -/
def read_criteria (src : Option (List Char)) : Except PyErr Json :=
  match src with
  | none => .error (.osError (cs "criteria file is unreadable"))
  | some s =>
    match jsonParse s with
    | some v => .ok v
    | none => .error (.jsonDecodeError (cs "Expecting value"))

/-- The observable side effects of one pipeline run, in program order. -/
inductive Effect where
  | readCriteria
  | walkProject
  | callModel
deriving DecidableEq

/-- The collaborators `validate_project` consumes: the project tree, the
criteria file's bytes, and the text-generation capability as a function from
prompt to raw response. -/
structure PipelineEnv where
  fs : FSNode
  criteriaSrc : Option (List Char)
  model : List Char → List Char

/-- The roles accepted by `validate_project`. -/
def validRoles : List (List Char) := [cs "intern", cs "sde", cs "architect"]

def ROLE_ERR_MSG : List Char := cs "role must be one of: intern, sde, architect"

/-- The extension allow-list `validate_project` passes to `gather_files`. -/
def defaultExts : List (List Char) :=
  [cs ".py", cs ".md", cs ".txt", cs ".json", cs ".yml", cs ".yaml", cs ".js",
   cs ".java", cs ".go"]

/-- The result dict of a successful `validate_project` call. `result` is the
object `verify_evidence` returned (the same object the parser produced,
mutated in place by the verifier). -/
structure ValidateOutput where
  raw : List Char
  result : Json
  files_sent_count : Nat

/-- `validate_project(project_root, criteria_path, role)`, paired with the
trace of external effects it performs before finishing: the role check, then
`read_criteria`, then the `gather_files` walk, then the prompt build, then
the model call, then parsing and evidence verification. -/
def validate_project (env : PipelineEnv) (role : List Char) :
    List Effect × Except PyErr ValidateOutput :=
  if role ∉ validRoles then ([], .error (.valueError ROLE_ERR_MSG))
  else
    match read_criteria env.criteriaSrc with
    | .error e => ([.readCriteria], .error e)
    | .ok criteria =>
      let files := gather_files env.fs (some defaultExts) 80 200000
      match (build_prompt criteria role files).2 with
      | .error e => ([.readCriteria, .walkProject], .error e)
      | .ok prompt =>
        let raw := env.model prompt
        match handle_model_output env.fs raw with
        | .error e => ([.readCriteria, .walkProject, .callModel], .error e)
        | .ok verified =>
          ([.readCriteria, .walkProject, .callModel],
            .ok ⟨raw, verified, files.length⟩)

/-! ### Spec-side descriptions (used to state the claims, written from the
spec's words, to be compared against the source-translated functions above) -/

/-- The value of an optional field read as a string, a missing field counting
as empty — the reading the claims use for `.get(k, '')`. -/
def strD : Option Json → List Char
  | some (.str s) => s
  | _ => []

/-- The elements of a JSON array value, anything else counting as empty. -/
def arrElems : Json → List Json
  | .arr xs => xs
  | _ => []

/-- Spec wording of the verification test for one evidence item: the cited
path is non-empty and resolves to an existing readable file, and the trimmed
snippet is non-empty and occurs as a literal substring of the file's text. -/
def specSnippetFound (root : FSNode) (p s : List Char) : Bool :=
  !p.isEmpty &&
    match resolveFile root p with
    | some (_, some text) => !(pyStrip s).isEmpty && containsSub (pyStrip s) text
    | _ => false

/-- Spec wording of the per-item annotation (as amended): set `verified` to
the verification verdict and, when unverified, append the fixed marker to
the note and strip the surrounding whitespace of the result. -/
def specItemVerdict (root : FSNode) : Json → Json
  | .obj kvs =>
    let v := specSnippetFound root (strD (objGet kvs (cs "path")))
      (strD (objGet kvs (cs "snippet")))
    let kvs1 := objInsert kvs (cs "verified") (.bool v)
    if v then .obj kvs1
    else .obj (objInsert kvs1 (cs "note")
      (.str (pyStrip (strD (objGet kvs1 (cs "note")) ++ NOT_FOUND_MARKER))))
  | ev => ev

/-- Spec wording of one category's annotation: every item of its evidence
list is annotated, the rest of the category is untouched. -/
def specDetails (root : FSNode) (d : Json) : Json :=
  match d with
  | .obj dkvs => .obj (objInsert dkvs (cs "evidence")
      (.arr ((arrElems ((objGet dkvs (cs "evidence")).getD (.arr []))).map
        (specItemVerdict root))))
  | x => x

/-- Spec wording of the whole Verifier pass: annotate every category of
`criteria_scores`, leaving every other part of the report untouched. -/
def specVerify (root : FSNode) (report : Json) : Json :=
  match report with
  | .obj rkvs =>
    match (objGet rkvs (cs "criteria_scores")).getD (.obj []) with
    | .obj cats => .obj (objInsert rkvs (cs "criteria_scores")
        (.obj (cats.map (fun p => (p.1, specDetails root p.2)))))
    | _ => report
  | _ => report

/-- A field is absent or holds a string. -/
def fieldOkStr (kvs : List (List Char × Json)) (k : List Char) : Bool :=
  match objGet kvs k with
  | none => true
  | some (.str _) => true
  | some _ => false

/-- An evidence item the Verifier handles without raising: a dict whose
`path`, `snippet` and `note` fields, where present, are strings. -/
def itemLenient : Json → Bool
  | .obj kvs =>
    fieldOkStr kvs (cs "path") && fieldOkStr kvs (cs "snippet") &&
      fieldOkStr kvs (cs "note")
  | _ => false

/-- A category whose evidence value is a list (or absent) of lenient items. -/
def detailsWF : Json → Bool
  | .obj dkvs =>
    match (objGet dkvs (cs "evidence")).getD (.arr []) with
    | .arr evs => evs.all itemLenient
    | _ => false
  | _ => false

/-- A report shaped as the model-output contract describes: a dict whose
`criteria_scores` value (when present) is a dict of well-formed categories. -/
def reportWF : Json → Bool
  | .obj rkvs =>
    match (objGet rkvs (cs "criteria_scores")).getD (.obj []) with
    | .obj cats => cats.all (fun p => detailsWF p.2)
    | _ => false
  | _ => false

/-- All characters brace-free (the reading of "prose" around a JSON payload
and of "raw output containing no brace"). -/
def noBraces (l : List Char) : Bool := l.all (fun c => !(c = '\x7b' || c = '\x7d'))

/-- The final path component (after the last `/`): the filename the claims
speak about. -/
def baseName (p : List Char) : List Char :=
  (p.reverse.takeWhile (fun c => c ≠ '/')).reverse

/-- Whether a filename is readme-named in the claims' sense. -/
def readmeNamed (p : List Char) : Bool :=
  (cs "readme").isPrefixOf ((baseName p).map Char.toLower)

/-! ### Basic lemmas about the modelled primitives -/

theorem objGet_objInsert_self (kvs : List (List Char × Json)) (k : List Char) (v : Json) :
    objGet (objInsert kvs k v) k = some v := by
  induction kvs with
  | nil => simp [objInsert, objGet]
  | cons p rest ih =>
    obtain ⟨k', v'⟩ := p
    by_cases h : k' = k
    · simp [objInsert, objGet, h]
    · simp [objInsert, objGet, h, ih]

theorem objGet_objInsert_ne (kvs : List (List Char × Json)) {k k' : List Char} (v : Json)
    (h : k' ≠ k) : objGet (objInsert kvs k v) k' = objGet kvs k' := by
  induction kvs with
  | nil => simp [objInsert, objGet, Ne.symm h]
  | cons p rest ih =>
    obtain ⟨k0, v0⟩ := p
    simp only [objInsert]
    by_cases h0 : k0 = k
    · subst h0
      simp [objGet, Ne.symm h]
    · simp only [if_neg h0, objGet, ih]

theorem mem_of_mem_pyStripLeft {x : Char} {l : List Char} (h : x ∈ pyStripLeft l) : x ∈ l :=
  (List.dropWhile_sublist _).subset h

theorem mem_of_mem_pyStripRight {x : Char} {l : List Char} (h : x ∈ pyStripRight l) : x ∈ l := by
  unfold pyStripRight at h
  rw [List.mem_reverse] at h
  have h2 : x ∈ l.reverse := (List.dropWhile_sublist pyWsChar).subset h
  rwa [List.mem_reverse] at h2

theorem mem_of_mem_pyStrip {x : Char} {l : List Char} (h : x ∈ pyStrip l) : x ∈ l :=
  mem_of_mem_pyStripLeft (mem_of_mem_pyStripRight h)

theorem containsSub_cons_eq_false {c : Char} {pat l : List Char} (h : ∀ x ∈ l, x ≠ c) :
    containsSub (c :: pat) l = false := by
  induction l with
  | nil => simp [containsSub]
  | cons d r ih =>
    have hd : ¬(c == d) := by
      have := h d (by simp)
      simp [this.symm]
    simp only [containsSub, List.isPrefixOf, Bool.or_eq_false_iff, Bool.and_eq_false_iff]
    constructor
    · left
      simpa using hd
    · exact ih (fun x hx => h x (by simp [hx]))

theorem pyReplaceGo_eq_self {pat rep : List Char} :
    ∀ (fuel : Nat) (s : List Char), containsSub pat s = false →
      pyReplaceGo pat rep fuel s = s
  | _, [], _ => by simp [pyReplaceGo]
  | 0, c :: s, _ => by simp [pyReplaceGo]
  | Nat.succ fuel, c :: s, h => by
    simp only [containsSub, Bool.or_eq_false_iff] at h
    have ih : pyReplaceGo pat rep fuel s = s := pyReplaceGo_eq_self fuel s h.2
    simp [pyReplaceGo, h.1, ih]

theorem pyReplace_eq_self {pat rep s : List Char} (h : containsSub pat s = false) :
    pyReplace s pat rep = s :=
  pyReplaceGo_eq_self _ _ h

theorem firstIdxOf?_eq_none {c : Char} : ∀ {l : List Char}, c ∉ l → firstIdxOf? c l = none
  | [], _ => rfl
  | d :: r, h => by
    have hd : ¬(d = c) := fun e => h (by subst e; exact List.mem_cons_self _ _)
    have hr : c ∉ r := fun hm => h (List.mem_cons_of_mem d hm)
    simp [firstIdxOf?, hd, firstIdxOf?_eq_none hr]

theorem firstIdxOf?_append_cons {c : Char} :
    ∀ {a : List Char} (b : List Char), c ∉ a → firstIdxOf? c (a ++ c :: b) = some a.length
  | [], b, _ => by simp [firstIdxOf?]
  | d :: r, b, h => by
    have hd : ¬(d = c) := fun e => h (by subst e; exact List.mem_cons_self _ _)
    have hr : c ∉ r := fun hm => h (List.mem_cons_of_mem d hm)
    have := firstIdxOf?_append_cons b hr
    simp [firstIdxOf?, hd, this]

theorem dropWhile_append_cons {p : Char → Bool} {c : Char} (h : p c = false) :
    ∀ (a bs : List Char),
      List.dropWhile p (a ++ c :: bs) = List.dropWhile p a ++ c :: bs
  | [], bs => by simp [List.dropWhile_cons, h]
  | d :: r, bs => by
    by_cases hd : p d
    · simp [List.dropWhile_cons, hd, dropWhile_append_cons h r bs]
    · simp [List.dropWhile_cons, hd]

/-! ### Shape lemmas for the JSON parser -/

theorem parseJArrElems_shape :
    ∀ (fuel : Nat) (s : List Char) (acc : List Json) (v : Json) (r : List Char),
      parseJArrElems fuel s acc = some (v, r) → ∃ xs, v = Json.arr xs
  | 0, s, acc, v, r => by simp [parseJArrElems]
  | Nat.succ fuel, s, acc, v, r => by
    simp only [parseJArrElems]
    split
    · simp
    · split
      · exact fun h => parseJArrElems_shape fuel _ _ _ _ h
      · intro h
        obtain ⟨h1, h2⟩ := Prod.mk.injEq .. ▸ Option.some.injEq .. ▸ h
        exact ⟨_, h1.symm⟩
      · simp

theorem parseJArrBody_shape (fuel : Nat) (s : List Char) (v : Json) (r : List Char)
    (h : parseJArrBody fuel s = some (v, r)) : ∃ xs, v = Json.arr xs := by
  cases fuel with
  | zero => simp [parseJArrBody] at h
  | succ fuel =>
    simp only [parseJArrBody] at h
    split at h
    · obtain ⟨h1, h2⟩ := Prod.mk.injEq .. ▸ Option.some.injEq .. ▸ h
      exact ⟨_, h1.symm⟩
    · exact parseJArrElems_shape fuel _ _ _ _ h

theorem parseJObjMembers_shape (fuel : Nat) :
    ∀ (s : List Char) (acc : List (List Char × Json)) (v : Json) (r : List Char),
      parseJObjMembers fuel s acc = some (v, r) → ∃ kvs, v = Json.obj kvs := by
  induction fuel with
  | zero => intro s acc v r h; simp [parseJObjMembers] at h
  | succ fuel ih =>
    intro s acc v r h
    simp only [parseJObjMembers] at h
    split at h
    · split at h
      · simp at h
      · split at h
        · split at h
          · simp at h
          · split at h
            · exact ih _ _ _ _ h
            · obtain ⟨h1, h2⟩ := Prod.mk.injEq .. ▸ Option.some.injEq .. ▸ h
              exact ⟨_, h1.symm⟩
            · simp at h
        · simp at h
    · simp at h

theorem parseJObjBody_shape (fuel : Nat) (s : List Char) (v : Json) (r : List Char)
    (h : parseJObjBody fuel s = some (v, r)) : ∃ kvs, v = Json.obj kvs := by
  cases fuel with
  | zero => simp [parseJObjBody] at h
  | succ fuel =>
    simp only [parseJObjBody] at h
    split at h
    · obtain ⟨h1, h2⟩ := Prod.mk.injEq .. ▸ Option.some.injEq .. ▸ h
      exact ⟨_, h1.symm⟩
    · exact parseJObjMembers_shape fuel _ _ _ _ h

/-- The parser only produces an object when the input starts with an opening
brace. -/
theorem parseJValue_obj_head (fuel : Nat) (s : List Char) (kvs : List (List Char × Json))
    (r : List Char) (h : parseJValue fuel s = some (.obj kvs, r)) :
    ∃ t, s = '\x7b' :: t := by
  cases fuel with
  | zero => simp [parseJValue] at h
  | succ fuel =>
    cases s with
    | nil => simp [parseJValue] at h
    | cons c cr =>
      simp only [parseJValue] at h
      split_ifs at h with h1 h2 h3 h4 h5 h6 h7
      · split at h <;> simp_all
      · split at h <;> simp_all
      · split at h <;> simp_all
      · rw [Option.map_eq_some'] at h
        obtain ⟨p, _, hp⟩ := h
        obtain ⟨p1, p2⟩ := p
        simp [Prod.ext_iff] at hp
      · exact ⟨cr, by rw [h5]⟩
      · obtain ⟨xs, hxs⟩ := parseJArrBody_shape _ _ _ _ h
        simp at hxs
      · rw [Option.map_eq_some'] at h
        obtain ⟨p, _, hp⟩ := h
        obtain ⟨p1, p2⟩ := p
        simp [Prod.ext_iff] at hp

/-- `json.loads` only yields a dict when the text contains an opening brace. -/
theorem jsonParse_obj_mem {s : List Char} {kvs : List (List Char × Json)}
    (h : jsonParse s = some (.obj kvs)) : '\x7b' ∈ s := by
  unfold jsonParse at h
  cases heq : parseJValue (3 * s.length + 8) (skipJWs s) with
  | none => rw [heq] at h; exact absurd h (by simp)
  | some p =>
    obtain ⟨v, rest⟩ := p
    rw [heq] at h
    change (if skipJWs rest = [] then some v else none) = some (Json.obj kvs) at h
    by_cases he : skipJWs rest = []
    · rw [if_pos he] at h
      have hv : v = Json.obj kvs := by simpa using h
      subst hv
      obtain ⟨t, ht⟩ := parseJValue_obj_head _ _ _ _ heq
      have hmem : '\x7b' ∈ skipJWs s := by rw [ht]; exact List.mem_cons_self _ _
      exact (List.dropWhile_sublist _).subset hmem
    · rw [if_neg he] at h
      exact absurd h (by simp)

/-! ### Order lemmas for the Selector's sort -/

theorem char_eq_of_toNat_eq {a b : Char} (h : a.toNat = b.toNat) : a = b :=
  Char.eq_of_val_eq (UInt32.eq_of_toBitVec_eq (BitVec.eq_of_toNat_eq h))

theorem pathLe_total : ∀ a b : List Char, (pathLe a b || pathLe b a) = true
  | [], _ => by simp [pathLe]
  | _ :: _, [] => by simp [pathLe]
  | a :: as, b :: bs => by
    by_cases hab : a = b
    · subst hab
      simp only [pathLe, if_pos rfl]
      exact pathLe_total as bs
    · have hba : ¬(b = a) := fun e => hab e.symm
      simp only [pathLe, if_neg hab, if_neg hba]
      have hne : a.toNat ≠ b.toNat := fun e => hab (char_eq_of_toNat_eq e)
      by_cases h : a.toNat < b.toNat
      · simp [h]
      · simp only [Bool.or_eq_true_iff, decide_eq_true_eq]
        right
        omega

theorem pathLe_trans : ∀ a b c : List Char,
    pathLe a b = true → pathLe b c = true → pathLe a c = true
  | [], _, _, _, _ => by simp [pathLe]
  | a :: as, [], c, hab, _ => by simp [pathLe] at hab
  | a :: as, b :: bs, [], _, hbc => by simp [pathLe] at hbc
  | a :: as, b :: bs, c :: ds, hab, hbc => by
    by_cases h1 : a = b
    · subst h1
      simp only [pathLe, if_pos rfl] at hab
      by_cases h2 : a = c
      · subst h2
        simp only [pathLe, if_pos rfl] at hbc ⊢
        exact pathLe_trans as bs ds hab hbc
      · have h2' : ¬(a = c) := h2
        simp only [pathLe, if_neg h2'] at hbc ⊢
        exact hbc
    · simp only [pathLe, if_neg h1, decide_eq_true_eq] at hab
      by_cases h2 : b = c
      · subst h2
        simp only [pathLe, if_neg h1, decide_eq_true_eq]
        exact hab
      · simp only [pathLe, if_neg h2, decide_eq_true_eq] at hbc
        have hac : a.toNat < c.toNat := lt_trans hab hbc
        have hne : ¬(a = c) := fun e => by subst e; omega
        simp only [pathLe, if_neg hne, decide_eq_true_eq]
        exact hac

theorem entryLe_total (a b : List Char × List Char) : (entryLe a b || entryLe b a) = true := by
  unfold entryLe
  by_cases h : readmeFlag a.1 = readmeFlag b.1
  · have := pathLe_total a.1 b.1
    rcases Bool.or_eq_true_iff.mp this with hp | hp <;> simp [h, hp]
  · have h2 : readmeFlag a.1 < readmeFlag b.1 ∨ readmeFlag b.1 < readmeFlag a.1 := by omega
    rcases h2 with h2 | h2 <;> simp [h2]

theorem entryLe_trans (a b c : List Char × List Char)
    (hab : entryLe a b = true) (hbc : entryLe b c = true) : entryLe a c = true := by
  unfold entryLe at hab hbc ⊢
  simp only [Bool.or_eq_true_iff, Bool.and_eq_true_iff, decide_eq_true_eq] at hab hbc ⊢
  rcases hab with hab | ⟨hab1, hab2⟩
  · rcases hbc with hbc | ⟨hbc1, hbc2⟩
    · left; omega
    · left; omega
  · rcases hbc with hbc | ⟨hbc1, hbc2⟩
    · left; omega
    · right
      exact ⟨by omega, pathLe_trans _ _ _ hab2 hbc2⟩

/-! ### Prompt Builder lemmas: the template's `str.format` call raises -/

set_option maxRecDepth 6000 in
theorem template_pre_noBraces : noBraces TEMPLATE_PRE = true := by decide

theorem pyFormatGo_copy_step (args : List (List Char × List Char)) (fuel : Nat)
    (acc : List Char) (c : Char) (r : List Char)
    (h1 : ¬(c = '\x7b')) (h2 : ¬(c = '\x7d')) :
    pyFormatGo args (Nat.succ fuel) acc (c :: r) = pyFormatGo args fuel (c :: acc) r := by
  rw [pyFormatGo.eq_def]
  split <;> simp_all

theorem pyFormatGo_copy (args : List (List Char × List Char)) :
    ∀ (lit : List Char), noBraces lit = true →
      ∀ (fuel : Nat) (acc rest : List Char), lit.length ≤ fuel →
      pyFormatGo args fuel acc (lit ++ rest) =
        pyFormatGo args (fuel - lit.length) (lit.reverse ++ acc) rest
  | [], _, fuel, acc, rest, _ => by simp
  | c :: l, h, fuel, acc, rest, hf => by
    simp only [noBraces, List.all_cons, Bool.and_eq_true] at h
    obtain ⟨hc, hl⟩ := h
    have hc1 : ¬(c = '\x7b') := by
      intro e; subst e; simp at hc
    have hc2 : ¬(c = '\x7d') := by
      intro e; subst e; simp at hc
    cases fuel with
    | zero => simp at hf
    | succ f =>
      rw [List.cons_append, pyFormatGo_copy_step args f acc c (l ++ rest) hc1 hc2]
      have ih := pyFormatGo_copy args l (by simpa [noBraces] using hl) f (c :: acc) rest
        (by simpa using hf)
      rw [ih]
      simp only [List.length_cons, List.reverse_cons, List.append_assoc,
        List.singleton_append, Nat.succ_sub_succ]

set_option maxRecDepth 6000 in
theorem pyFormatGo_template_field (args : List (List Char × List Char)) (f : Nat)
    (acc : List Char) (h : lookupArg args TEMPLATE_NAME = none) :
    pyFormatGo args (Nat.succ f) acc
      ('\x7b' :: (TEMPLATE_NAME ++ ':' :: (TEMPLATE_SPEC ++ '\x7d' :: TEMPLATE_TAIL)))
      = .error (.keyError TEMPLATE_NAME) := by
  show pyFormatGo args (Nat.succ f) acc
      ('\x7b' :: '\n' :: (cs "    \"role\"" ++ ':' :: (TEMPLATE_SPEC ++ '\x7d' :: TEMPLATE_TAIL)))
      = .error (.keyError TEMPLATE_NAME)
  rw [pyFormatGo.eq_def]
  split <;> try simp_all
  case h_7 a1 a2 a3 a4 fuel0 c0 r0 hn1 hn2 hfe heqe =>
    exact absurd heqe.1.symm hn2
  case h_6 a1 a2 a3 a4 fuel0 r0 hno hfe heqe =>
  subst heqe
  have e1 : List.takeWhile
      (fun c => !decide (c = '.') && !decide (c = '[') && !decide (c = ':') &&
        !decide (c = '!') && !decide (c = '\x7b') && !decide (c = '\x7d'))
      ('\n' :: (cs "    \"role\"" ++ ':' :: (TEMPLATE_SPEC ++ '\x7d' :: TEMPLATE_TAIL)))
      = TEMPLATE_NAME := rfl
  rw [e1]
  have e2 : List.drop TEMPLATE_NAME.length
      ('\n' :: (cs "    \"role\"" ++ ':' :: (TEMPLATE_SPEC ++ '\x7d' :: TEMPLATE_TAIL)))
      = ':' :: (TEMPLATE_SPEC ++ '\x7d' :: TEMPLATE_TAIL) := rfl
  rw [e2]
  conv_lhs => whnf
  rw [h]

theorem pyFormat_template_keyError (args : List (List Char × List Char))
    (h : lookupArg args TEMPLATE_NAME = none) :
    pyFormat PROMPT_TEMPLATE args = .error (.keyError TEMPLATE_NAME) := by
  have hlen : PROMPT_TEMPLATE.length = TEMPLATE_PRE.length +
      ((TEMPLATE_NAME ++ ':' :: (TEMPLATE_SPEC ++ '\x7d' :: TEMPLATE_TAIL)).length + 1) := by
    simp [PROMPT_TEMPLATE, List.length_append, List.length_cons]
  unfold pyFormat
  show pyFormatGo args (PROMPT_TEMPLATE.length + 1) []
      (TEMPLATE_PRE ++ '\x7b' :: (TEMPLATE_NAME ++ ':' :: (TEMPLATE_SPEC ++ '\x7d' :: TEMPLATE_TAIL)))
      = .error (.keyError TEMPLATE_NAME)
  rw [pyFormatGo_copy args TEMPLATE_PRE template_pre_noBraces _ _ _ (by omega)]
  have hf : PROMPT_TEMPLATE.length + 1 - TEMPLATE_PRE.length =
      Nat.succ ((TEMPLATE_NAME ++ ':' :: (TEMPLATE_SPEC ++ '\x7d' :: TEMPLATE_TAIL)).length + 1) := by
    omega
  rw [hf]
  exact pyFormatGo_template_field args _ _ h

theorem build_prompt_formatError (criteria : Json) (role : List Char)
    (file_entries : List (List Char × List Char)) :
    (build_prompt criteria role file_entries).2 = .error (.keyError TEMPLATE_NAME) := by
  have h : lookupArg
      [(cs "criteria_json", jsonDumpVal 0 criteria),
       (cs "role", role),
       (cs "files_dump", joinWithNL ((file_entries.map
         (fun f => (f, renderFileBlock f))).map (fun p => p.2)))] TEMPLATE_NAME = none := rfl
  simp only [build_prompt, pyFormat_template_keyError _ h]
  rfl

/-! ### Selector lemmas -/

theorem gatherLoc_length (exts : Option (List (List Char))) (maxF maxB : Nat)
    (pfx : List Char) :
    ∀ (fs : List (List Char × Nat × Option (List Char))) (acc : List (List Char × List Char)),
      (gatherLoc exts maxF maxB pfx fs acc).length ≤ max acc.length maxF
  | [], acc => by simp [gatherLoc]
  | (name, sz, ct) :: rest, acc => by
    simp only [gatherLoc]
    by_cases h1 : maxF ≤ acc.length
    · rw [if_pos h1]
      omega
    · rw [if_neg h1]
      by_cases h2 : extExcluded exts name = true
      · rw [if_pos h2]
        exact gatherLoc_length exts maxF maxB pfx rest acc
      · rw [if_neg h2]
        by_cases h3 : maxB < sz
        · rw [if_pos h3]
          exact gatherLoc_length exts maxF maxB pfx rest acc
        · rw [if_neg h3]
          cases ct with
          | none => exact gatherLoc_length exts maxF maxB pfx rest acc
          | some c =>
            dsimp only
            have ih := gatherLoc_length exts maxF maxB pfx rest
              (acc ++ [(relOf pfx name, c)])
            simp only [List.length_append, List.length_cons, List.length_nil] at ih
            omega

theorem collectLoop_length (exts : Option (List (List Char))) (maxF maxB : Nat) :
    ∀ (ws : List (List Char × List (List Char × Nat × Option (List Char))))
      (acc : List (List Char × List Char)),
      (collectLoop exts maxF maxB ws acc).length ≤ max acc.length maxF
  | [], acc => by simp [collectLoop]
  | (pfx, fs) :: rest, acc => by
    simp only [collectLoop]
    have h1 := gatherLoc_length exts maxF maxB pfx fs acc
    by_cases h : maxF ≤ (gatherLoc exts maxF maxB pfx fs acc).length
    · simp only [if_pos h]
      omega
    · simp only [if_neg h]
      have ih := collectLoop_length exts maxF maxB rest (gatherLoc exts maxF maxB pfx fs acc)
      omega

theorem gatherLoc_mem (exts : Option (List (List Char))) (maxF maxB : Nat)
    (pfx : List Char) :
    ∀ (fs : List (List Char × Nat × Option (List Char))) (acc : List (List Char × List Char))
      (e : List Char × List Char), e ∈ gatherLoc exts maxF maxB pfx fs acc →
      e ∈ acc ∨ ∃ n sz, (n, sz, some e.2) ∈ fs ∧ e.1 = relOf pfx n ∧ sz ≤ maxB
  | [], acc, e, h => by simp [gatherLoc] at h; exact Or.inl h
  | (name, sz, ct) :: rest, acc, e, h => by
    simp only [gatherLoc] at h
    by_cases h1 : maxF ≤ acc.length
    · rw [if_pos h1] at h
      exact Or.inl h
    · rw [if_neg h1] at h
      by_cases h2 : extExcluded exts name
      · rw [if_pos (by simp [h2])] at h
        rcases gatherLoc_mem exts maxF maxB pfx rest acc e h with h' | ⟨n, sz', hmem, he1, he2⟩
        · exact Or.inl h'
        · exact Or.inr ⟨n, sz', List.mem_cons_of_mem _ hmem, he1, he2⟩
      · rw [if_neg (by simp [h2])] at h
        by_cases h3 : maxB < sz
        · rw [if_pos h3] at h
          rcases gatherLoc_mem exts maxF maxB pfx rest acc e h with h' | ⟨n, sz', hmem, he1, he2⟩
          · exact Or.inl h'
          · exact Or.inr ⟨n, sz', List.mem_cons_of_mem _ hmem, he1, he2⟩
        · rw [if_neg h3] at h
          cases ct with
          | none =>
            rcases gatherLoc_mem exts maxF maxB pfx rest acc e h with h' | ⟨n, sz', hmem, he1, he2⟩
            · exact Or.inl h'
            · exact Or.inr ⟨n, sz', List.mem_cons_of_mem _ hmem, he1, he2⟩
          | some c =>
            rcases gatherLoc_mem exts maxF maxB pfx rest _ e h with h' | ⟨n, sz', hmem, he1, he2⟩
            · rcases List.mem_append.mp h' with h'' | h''
              · exact Or.inl h''
              · have he : e = (relOf pfx name, c) := by simpa using h''
                subst he
                exact Or.inr ⟨name, sz, List.mem_cons_self _ _, rfl, by omega⟩
            · exact Or.inr ⟨n, sz', List.mem_cons_of_mem _ hmem, he1, he2⟩

theorem collectLoop_mem (exts : Option (List (List Char))) (maxF maxB : Nat) :
    ∀ (ws : List (List Char × List (List Char × Nat × Option (List Char))))
      (acc : List (List Char × List Char)) (e : List Char × List Char),
      e ∈ collectLoop exts maxF maxB ws acc →
      e ∈ acc ∨ ∃ pfx fs n sz, (pfx, fs) ∈ ws ∧ (n, sz, some e.2) ∈ fs ∧
        e.1 = relOf pfx n ∧ sz ≤ maxB
  | [], acc, e, h => by simp [collectLoop] at h; exact Or.inl h
  | (pfx, fs) :: rest, acc, e, h => by
    simp only [collectLoop] at h
    by_cases hc : maxF ≤ (gatherLoc exts maxF maxB pfx fs acc).length
    · rw [if_pos hc] at h
      rcases gatherLoc_mem exts maxF maxB pfx fs acc e h with h' | ⟨n, sz, hmem, he1, he2⟩
      · exact Or.inl h'
      · exact Or.inr ⟨pfx, fs, n, sz, List.mem_cons_self _ _, hmem, he1, he2⟩
    · rw [if_neg hc] at h
      rcases collectLoop_mem exts maxF maxB rest _ e h with h' | ⟨p, f, n, sz, hw, hmem, he1, he2⟩
      · rcases gatherLoc_mem exts maxF maxB pfx fs acc e h' with h'' | ⟨n, sz, hmem, he1, he2⟩
        · exact Or.inl h''
        · exact Or.inr ⟨pfx, fs, n, sz, List.mem_cons_self _ _, hmem, he1, he2⟩
      · exact Or.inr ⟨p, f, n, sz, List.mem_cons_of_mem _ hw, hmem, he1, he2⟩

theorem mem_walkFiles_intro {es : FSEntries}
    {pfx n : List Char} {sz : Nat} {ct : Option (List Char)}
    {fs : List (List Char × Nat × Option (List Char))}
    (hw : (pfx, fs) ∈ pyWalk [] es) (hf : (n, sz, ct) ∈ fs) :
    (relOf pfx n, sz, ct) ∈ walkFiles (.dir es) := by
  unfold walkFiles
  rw [List.mem_flatMap]
  exact ⟨(pfx, fs), hw, by
    rw [List.mem_map]
    exact ⟨(n, sz, ct), hf, rfl⟩⟩

/-! ### Claims C4 and C5 — the File Selector -/

/-- C4: for every project tree and every configuration (allowed-extension
set, max file count, max per-file byte size), `gather_files` returns at most
max-file-count entries, and every returned entry corresponds to a file of the
walked tree whose on-disk size does not exceed the byte ceiling (and whose
decoded content is the entry's content). -/
theorem C4_selector_bounds (root : FSNode) (include_exts : Option (List (List Char)))
    (maxF maxB : Nat) :
    (gather_files root include_exts maxF maxB).length ≤ maxF ∧
    ∀ e ∈ gather_files root include_exts maxF maxB,
      ∃ sz, (e.1, sz, some e.2) ∈ walkFiles root ∧ sz ≤ maxB := by
  constructor
  · unfold gather_files
    cases root with
    | file sz ct =>
      rw [(List.perm_insertionSort entryRel _).length_eq]
      simpa using collectLoop_length
        (match include_exts with
         | some l => if l.isEmpty then none else some l
         | none => none) maxF maxB [] []
    | dir es =>
      rw [(List.perm_insertionSort entryRel _).length_eq]
      simpa using collectLoop_length
        (match include_exts with
         | some l => if l.isEmpty then none else some l
         | none => none) maxF maxB (pyWalk [] es) []
  · intro e he
    unfold gather_files at he
    rw [(List.perm_insertionSort entryRel _).mem_iff] at he
    cases root with
    | file sz ct => simp [collectLoop] at he
    | dir es =>
      rcases collectLoop_mem _ maxF maxB (pyWalk [] es) [] e he with
        h | ⟨pfx, fs, n, sz, hw, hmem, he1, he2⟩
      · simp at h
      · exact ⟨sz, by rw [he1]; exact mem_walkFiles_intro hw hmem, he2⟩

/-- C4 witness: a concrete tree, configuration, and returned entry at which
the bound and the correspondence are discharged. -/
theorem C4_selector_bounds_witness :
    ((cs "README.md", cs "hello") ∈
      gather_files (.dir (entriesOf [(cs "README.md", .file 5 (some (cs "hello"))),
        (cs "a.py", .file 4 (some (cs "pass")))])) none 40 200000) ∧
    ∃ sz, ((cs "README.md", cs "hello").1, sz, some (cs "README.md", cs "hello").2) ∈
        walkFiles (.dir (entriesOf [(cs "README.md", .file 5 (some (cs "hello"))),
          (cs "a.py", .file 4 (some (cs "pass")))])) ∧ sz ≤ 200000 :=
  ⟨by decide,
   (C4_selector_bounds (.dir (entriesOf [(cs "README.md", .file 5 (some (cs "hello"))),
      (cs "a.py", .file 4 (some (cs "pass")))])) none 40 200000).2
     (cs "README.md", cs "hello") (by decide)⟩

/-- C5 counterexample: the code sorts by the full relative path, not the
filename, so a readme found in a subdirectory is not sorted first: with a
root file `a.py` and `docs/README.md`, the readme-named entry comes second. -/
theorem C5_counterexample :
    gather_files (.dir (entriesOf [(cs "a.py", .file 4 (some (cs "pass"))),
        (cs "docs", .dir (entriesOf [(cs "README.md", .file 5 (some (cs "hello")))]))]))
        none 40 200000
      = [(cs "a.py", cs "pass"), (cs "docs/README.md", cs "hello")] ∧
    readmeNamed (cs "docs/README.md") = true ∧
    readmeNamed (cs "a.py") = false := by
  exact ⟨by decide, by decide, by decide⟩

/-- C5 (amended): the Selector is deterministic, and its output is sorted by
the key `(path-starts-with-readme priority, path)` — entries whose full
relative path (not filename) starts with `readme` first, the rest in
ascending lexical path order. -/
theorem C5_deterministic_sorted (root : FSNode) (include_exts : Option (List (List Char)))
    (maxF maxB : Nat) :
    gather_files root include_exts maxF maxB = gather_files root include_exts maxF maxB ∧
    (gather_files root include_exts maxF maxB).Pairwise (fun a b => entryLe a b = true) := by
  refine ⟨rfl, ?_⟩
  haveI : IsTotal (List Char × List Char) entryRel :=
    ⟨fun a b => Bool.or_eq_true_iff.mp (entryLe_total a b)⟩
  haveI : IsTrans (List Char × List Char) entryRel :=
    ⟨fun a b c => entryLe_trans a b c⟩
  unfold gather_files
  exact List.sorted_insertionSort entryRel _

/-! ### Claims C6–C9 — the Orchestrator and the Prompt Builder -/

/-- C6: for every role outside the closed set `intern`/`sde`/`architect`,
`validate_project` fails immediately with the configuration `ValueError`: the
effect trace is empty, so the failure precedes the criteria read, any
project-file traversal, and any model call. -/
theorem C6_invalid_role (env : PipelineEnv) (role : List Char)
    (h : role ∉ validRoles) :
    validate_project env role = ([], .error (.valueError ROLE_ERR_MSG)) := by
  rw [validate_project.eq_def, if_pos h]

/-- C6 witness: the role `manager` at a concrete environment. -/
theorem C6_invalid_role_witness :
    ((cs "manager") ∉ validRoles) ∧
    validate_project ⟨.dir (entriesOf []), some (cs "\x7b\x7d"), fun _ => []⟩ (cs "manager")
      = ([], .error (.valueError ROLE_ERR_MSG)) :=
  ⟨by decide, C6_invalid_role _ _ (by decide)⟩

/-- C7: per-file rendering in the Prompt Builder. Content over 6000
characters is rendered as its first 3000 characters, the elision marker, and
its last 3000 characters (then fence-escaped); content of at most 6000
characters is rendered unmodified apart from fence escaping — and exactly
unmodified when it contains no backtick fence. -/
theorem C7_truncation (path content : List Char) :
    (6000 < content.length →
      renderFileBlock (path, content) = cs "---FILE: " ++ path ++ cs "---\n" ++
        pyReplace (content.take 3000 ++ SNIPPED_MARKER ++ content.drop (content.length - 3000))
          FENCE FENCE_ESCAPED ++ cs "\n") ∧
    (content.length ≤ 6000 →
      renderFileBlock (path, content) = cs "---FILE: " ++ path ++ cs "---\n" ++
        pyReplace content FENCE FENCE_ESCAPED ++ cs "\n") ∧
    (content.length ≤ 6000 → containsSub FENCE content = false →
      renderFileBlock (path, content) = cs "---FILE: " ++ path ++ cs "---\n" ++ content ++ cs "\n") := by
  refine ⟨?_, ?_, ?_⟩
  · intro h
    rw [renderFileBlock, limitFileContent, if_pos h]
  · intro h
    rw [renderFileBlock, limitFileContent, if_neg (Nat.not_lt.mpr h)]
  · intro h hf
    rw [renderFileBlock, limitFileContent, if_neg (Nat.not_lt.mpr h), pyReplace_eq_self hf]

set_option maxRecDepth 4000 in
/-- C7 witness: the boundary contents of exactly 6001 and exactly 6000
characters. -/
theorem C7_truncation_witness :
    (6000 < (List.replicate 6001 'a').length ∧
      renderFileBlock (cs "big.py", List.replicate 6001 'a') =
        cs "---FILE: " ++ cs "big.py" ++ cs "---\n" ++
          pyReplace ((List.replicate 6001 'a').take 3000 ++ SNIPPED_MARKER ++
            (List.replicate 6001 'a').drop ((List.replicate 6001 'a').length - 3000))
            FENCE FENCE_ESCAPED ++ cs "\n") ∧
    ((List.replicate 6000 'a').length ≤ 6000 ∧
      renderFileBlock (cs "ok.py", List.replicate 6000 'a') =
        cs "---FILE: " ++ cs "ok.py" ++ cs "---\n" ++ List.replicate 6000 'a' ++ cs "\n") := by
  have hfence : containsSub FENCE (List.replicate 6000 'a') = false := by
    show containsSub ('\x60' :: cs "\x60\x60") (List.replicate 6000 'a') = false
    apply containsSub_cons_eq_false
    intro x hx
    rw [List.eq_of_mem_replicate hx]
    decide
  have h1 : 6000 < (List.replicate 6001 'a').length := by
    rw [List.length_replicate]
    omega
  have h2 : (List.replicate 6000 'a').length ≤ 6000 := by
    rw [List.length_replicate]
  refine ⟨⟨h1, ?_⟩, ⟨h2, ?_⟩⟩
  · exact (C7_truncation (cs "big.py") (List.replicate 6001 'a')).1 h1
  · exact (C7_truncation (cs "ok.py") (List.replicate 6000 'a')).2.2 h2 hfence

/-- C8: the Prompt Builder leaves the caller's file-entry list untouched:
the entries component that survives the call is the input list itself, every
path and content unchanged (truncation and escaping happen only on the copies
rendered into the prompt). -/
theorem C8_no_mutation (criteria : Json) (role : List Char)
    (file_entries : List (List Char × List Char)) :
    (build_prompt criteria role file_entries).1 = file_entries := by
  show List.map (fun p => p.1)
      (List.map (fun f => (f, renderFileBlock f)) file_entries) = file_entries
  induction file_entries with
  | nil => rfl
  | cons a t ih =>
    simp only [List.map_cons]
    rw [ih]

/-- C9 (code bug): the pipeline can never return a report at all.
`PROMPT_TEMPLATE` contains unescaped literal braces (the JSON shape example),
so `str.format` parses the text after the first brace as a replacement field
named `"\n    \"role\""` and raises `KeyError` on every call: at this
concrete well-formed input (valid role, readable criteria, readable project,
model ready to answer), `validate_project` stops inside the Prompt Builder —
after reading the criteria and walking the project, before the model call —
instead of producing the verified report the spec promises. -/
theorem C9_code_bug :
    validate_project ⟨.dir (entriesOf [(cs "README.md", .file 9 (some (cs "hello foo")))]),
        some (cs "\x7b\"correctness\": 50\x7d"),
        fun _ => cs "\x7b\"criteria_scores\": \x7b\x7d\x7d"⟩ (cs "intern")
      = ([.readCriteria, .walkProject], .error (.keyError TEMPLATE_NAME)) := by
  have h0 : ¬(cs "intern" ∉ validRoles) := by decide
  have hc : read_criteria (some (cs "\x7b\"correctness\": 50\x7d"))
      = Except.ok (Json.obj [(cs "correctness", Json.num (cs "50"))]) := rfl
  rw [validate_project.eq_def, if_neg h0]
  dsimp only
  rw [hc]
  dsimp only
  rw [build_prompt_formatError]


/-! ### The Response Parser: extraction of the braced substring (C2, C3) -/

theorem noBraces_not_mem {l : List Char} (h : noBraces l = true) :
    '\x7b' ∉ l ∧ '\x7d' ∉ l := by
  simp only [noBraces, List.all_eq_true] at h
  refine ⟨fun hm => ?_, fun hm => ?_⟩
  · have := h _ hm; simp at this
  · have := h _ hm; simp at this

theorem pyStrip_wrap (pre mid post : List Char) :
    pyStrip (pre ++ ('\x7b' :: (mid ++ ['\x7d'])) ++ post) =
      pyStripLeft pre ++ ('\x7b' :: (mid ++ ['\x7d'])) ++ pyStripRight post := by
  have hob : pyWsChar '\x7b' = false := rfl
  have hcb : pyWsChar '\x7d' = false := rfl
  have hA : pyStripLeft (pre ++ ('\x7b' :: (mid ++ ['\x7d'])) ++ post)
      = pyStripLeft pre ++ ('\x7b' :: (mid ++ ['\x7d'])) ++ post := by
    show List.dropWhile pyWsChar _ = _
    rw [List.append_assoc]
    rw [show ('\x7b' :: (mid ++ ['\x7d'])) ++ post
        = '\x7b' :: ((mid ++ ['\x7d']) ++ post) from rfl]
    rw [dropWhile_append_cons hob]
    simp [pyStripLeft, List.append_assoc]
  have hB : pyStripRight (pyStripLeft pre ++ ('\x7b' :: (mid ++ ['\x7d'])) ++ post)
      = pyStripLeft pre ++ ('\x7b' :: (mid ++ ['\x7d'])) ++ pyStripRight post := by
    show (List.dropWhile pyWsChar _).reverse = _
    have hrev : (pyStripLeft pre ++ ('\x7b' :: (mid ++ ['\x7d'])) ++ post).reverse
        = post.reverse ++ '\x7d' ::
            (mid.reverse ++ '\x7b' :: (pyStripLeft pre).reverse) := by
      simp [List.reverse_append, List.append_assoc]
    rw [hrev, dropWhile_append_cons hcb]
    simp [pyStripRight, List.reverse_append, List.append_assoc]
  show pyStripRight (pyStripLeft _) = _
  rw [hA, hB]

theorem parse_model_output_of_idx {raw : List Char} {i j : Nat} {v : Json}
    (hf : firstIdxOf? '\x7b' (pyStrip raw) = some i)
    (hl : lastIdxOf? '\x7d' (pyStrip raw) = some j)
    (hv : jsonParse (pySlice (pyStrip raw) i (j + 1)) = some v) :
    parse_model_output raw = .ok v := by
  unfold parse_model_output
  simp only [hf, hl, hv]

/-- C2: the parser first tries the substring from the first opening brace to
the last closing brace of the stripped text; in particular for raw output made
of brace-free prose around a single valid JSON payload delimited by braces,
parsing succeeds and yields exactly the payload's value. -/
theorem C2_parser_extracts (pre mid post : List Char) (v : Json)
    (hpre : noBraces pre = true) (hpost : noBraces post = true)
    (hv : jsonParse ('\x7b' :: (mid ++ ['\x7d'])) = some v) :
    parse_model_output (pre ++ ('\x7b' :: (mid ++ ['\x7d'])) ++ post) = .ok v := by
  have hob : '\x7b' ∉ pyStripLeft pre :=
    fun hm => (noBraces_not_mem hpre).1 (mem_of_mem_pyStripLeft hm)
  have hcb : '\x7d' ∉ (pyStripRight post).reverse :=
    fun hm => (noBraces_not_mem hpost).2 (mem_of_mem_pyStripRight (List.mem_reverse.mp hm))
  have hstrip := pyStrip_wrap pre mid post
  have hfi : firstIdxOf? '\x7b' (pyStrip (pre ++ ('\x7b' :: (mid ++ ['\x7d'])) ++ post))
      = some (pyStripLeft pre).length := by
    rw [hstrip, List.append_assoc]
    rw [show ('\x7b' :: (mid ++ ['\x7d'])) ++ pyStripRight post
        = '\x7b' :: ((mid ++ ['\x7d']) ++ pyStripRight post) from rfl]
    exact firstIdxOf?_append_cons _ hob
  have hrev : (pyStripLeft pre ++ ('\x7b' :: (mid ++ ['\x7d'])) ++ pyStripRight post).reverse
      = (pyStripRight post).reverse ++ '\x7d' ::
          (mid.reverse ++ '\x7b' :: (pyStripLeft pre).reverse) := by
    simp [List.reverse_append, List.append_assoc]
  have hfr : firstIdxOf? '\x7d'
      ((pyStripLeft pre ++ ('\x7b' :: (mid ++ ['\x7d'])) ++ pyStripRight post).reverse)
      = some (pyStripRight post).reverse.length := by
    rw [hrev]; exact firstIdxOf?_append_cons _ hcb
  have hlen : (pyStripLeft pre ++ ('\x7b' :: (mid ++ ['\x7d'])) ++ pyStripRight post).length
      = (pyStripLeft pre).length + (mid.length + 2) + (pyStripRight post).length := by
    simp only [List.length_append, List.length_cons, List.length_nil]
  have hli : lastIdxOf? '\x7d' (pyStrip (pre ++ ('\x7b' :: (mid ++ ['\x7d'])) ++ post))
      = some ((pyStripLeft pre).length + (mid.length + 1)) := by
    rw [hstrip]
    unfold lastIdxOf?
    rw [hfr]
    simp only [Option.map_some', List.length_reverse, hlen]
    congr 1
    omega
  have hslice : pySlice (pyStrip (pre ++ ('\x7b' :: (mid ++ ['\x7d'])) ++ post))
      (pyStripLeft pre).length ((pyStripLeft pre).length + (mid.length + 1) + 1)
      = '\x7b' :: (mid ++ ['\x7d']) := by
    rw [hstrip]
    unfold pySlice
    rw [List.append_assoc, List.drop_left]
    have h2 : (pyStripLeft pre).length + (mid.length + 1) + 1 - (pyStripLeft pre).length
        = ('\x7b' :: (mid ++ ['\x7d'])).length := by
      simp
      omega
    rw [h2, List.take_left]
  exact parse_model_output_of_idx hfi hli (by rw [hslice]; exact hv)

/-- C2 witness: prose before and after a one-member JSON object. -/
theorem C2_parser_extracts_witness :
    parse_model_output (cs "Sure! Here you go:\n" ++
        ('\x7b' :: (cs "\"role\":\"intern\"" ++ ['\x7d'])) ++ cs "\nThanks!")
      = .ok (.obj [(cs "role", .str (cs "intern"))]) :=
  C2_parser_extracts (cs "Sure! Here you go:\n") (cs "\"role\":\"intern\"") (cs "\nThanks!")
    (.obj [(cs "role", .str (cs "intern"))]) (by decide) (by decide) (by rfl)

theorem parse_model_output_fallb {raw : List Char} (h : '\x7b' ∉ pyStrip raw) :
    parse_model_output raw =
      match jsonParse (pyStrip raw) with
      | some v => .ok v
      | none => .error (.runtimeError (parseFailMsg (pyStrip raw))) := by
  unfold parse_model_output
  simp only [firstIdxOf?_eq_none h]

/-- C3 counterexample: the brace-free raw output `42` does not fail with the
diagnostic `RuntimeError` the claim describes — the fallback parse succeeds on
the whole text, and the pipeline instead crashes later with an
`AttributeError` when `verify_evidence` calls `.get` on the parsed integer. -/
theorem C3_attribute_error_counterexample :
    parse_model_output (cs "42") = .ok (.num (cs "42")) ∧
    handle_model_output (.dir .nil) (cs "42")
      = .error (.attributeError (cs "object has no attribute get")) := ⟨rfl, rfl⟩

/-- C3 (amended): a brace-free raw output never yields a report — the pipeline
always raises — and it raises the diagnostic `RuntimeError` built from the
first 2000 characters of the stripped text exactly when the whole stripped
text is not valid JSON either (otherwise the failure is an `AttributeError`
from the Verifier, as the fallback parse of the whole text succeeded with a
non-dict value). -/
theorem C3_no_brace_fails (raw : List Char) (h : noBraces raw = true) :
    (∀ root v, handle_model_output root raw ≠ .ok v) ∧
    (jsonParse (pyStrip raw) = none →
      parse_model_output raw = .error (.runtimeError (parseFailMsg (pyStrip raw)))) := by
  have hob : '\x7b' ∉ pyStrip raw :=
    fun hm => (noBraces_not_mem h).1 (mem_of_mem_pyStrip hm)
  have hfall := parse_model_output_fallb hob
  constructor
  · intro root v hok
    unfold handle_model_output at hok
    rw [hfall] at hok
    cases hjp : jsonParse (pyStrip raw) with
    | none => rw [hjp] at hok; simp at hok
    | some w =>
      rw [hjp] at hok
      cases w with
      | obj kvs => exact hob (jsonParse_obj_mem hjp)
      | null => simp [verify_evidence] at hok
      | bool b => simp [verify_evidence] at hok
      | num t => simp [verify_evidence] at hok
      | str s => simp [verify_evidence] at hok
      | arr xs => simp [verify_evidence] at hok
  · intro hnone
    rw [hfall, hnone]

/-- C3 witness: the brace-free, non-JSON raw output `@@`. -/
theorem C3_no_brace_fails_witness :
    parse_model_output (cs "@@")
      = .error (.runtimeError (parseFailMsg (pyStrip (cs "@@")))) :=
  (C3_no_brace_fails (cs "@@") (by decide)).2 (by rfl)

/-! ### The Evidence Verifier on well-formed reports (C1, C10) -/

theorem fieldOkStr_shape {kvs : List (List Char × Json)} {k : List Char}
    (h : fieldOkStr kvs k = true) :
    objGet kvs k = none ∨ ∃ s, objGet kvs k = some (.str s) := by
  unfold fieldOkStr at h
  cases hg : objGet kvs k with
  | none => exact Or.inl rfl
  | some j =>
    cases j with
    | null => rw [hg] at h; simp at h
    | bool b => rw [hg] at h; simp at h
    | num t => rw [hg] at h; simp at h
    | str s => exact Or.inr ⟨s, rfl⟩
    | arr l => rw [hg] at h; simp at h
    | obj l => rw [hg] at h; simp at h

theorem verifyOne_lenient (root : FSNode) (kvs : List (List Char × Json))
    (h : itemLenient (.obj kvs) = true) :
    verifyOne root (.obj kvs) = .ok (specItemVerdict root (.obj kvs)) := by
  unfold itemLenient at h
  simp only [Bool.and_eq_true] at h
  obtain ⟨⟨hp, hs⟩, hn⟩ := h
  have hnv : ∀ b : Bool, objGet (objInsert kvs (cs "verified") (.bool b)) (cs "note")
      = objGet kvs (cs "note") :=
    fun b => objGet_objInsert_ne kvs (.bool b) (by decide)
  rcases fieldOkStr_shape hp with hpv | ⟨p, hpv⟩
  · rcases fieldOkStr_shape hs with hsv | ⟨s, hsv⟩ <;>
      rcases fieldOkStr_shape hn with hnv2 | ⟨n, hnv2⟩ <;>
        simp [verifyOne, specItemVerdict, specSnippetFound, strD, hpv, hsv, hnv2, hnv]
  · by_cases hpe : p = []
    · subst hpe
      rcases fieldOkStr_shape hs with hsv | ⟨s, hsv⟩ <;>
        rcases fieldOkStr_shape hn with hnv2 | ⟨n, hnv2⟩ <;>
          simp [verifyOne, specItemVerdict, specSnippetFound, strD, hpv, hsv, hnv2, hnv]
    · rcases hr : resolveFile root p with _ | ⟨sz, ct⟩
      · rcases fieldOkStr_shape hs with hsv | ⟨s, hsv⟩ <;>
          rcases fieldOkStr_shape hn with hnv2 | ⟨n, hnv2⟩ <;>
            simp [verifyOne, specItemVerdict, specSnippetFound, strD, hpv, hsv, hnv2,
              hnv, hpe, hr]
      · rcases ct with _ | text
        · rcases fieldOkStr_shape hs with hsv | ⟨s, hsv⟩ <;>
            rcases fieldOkStr_shape hn with hnv2 | ⟨n, hnv2⟩ <;>
              simp [verifyOne, specItemVerdict, specSnippetFound, strD, hpv, hsv, hnv2,
                hnv, hpe, hr]
        · have hpeb : p.isEmpty = false := by
            cases p
            · exact absurd rfl hpe
            · rfl
          rcases fieldOkStr_shape hs with hsv | ⟨s, hsv⟩
          · rcases fieldOkStr_shape hn with hnv2 | ⟨n, hnv2⟩ <;>
              simp [verifyOne, specItemVerdict, specSnippetFound, strD, hpv, hsv, hnv2,
                hnv, hpe, hr, pyStrip, pyStripLeft, pyStripRight]
          · rcases fieldOkStr_shape hn with hnv2 | ⟨n, hnv2⟩
            all_goals
              simp [verifyOne, specItemVerdict, specSnippetFound, strD, hpv, hsv, hnv2,
                hnv, hpe, hr]
            all_goals
              cases hb : !(pyStrip s).isEmpty && containsSub (pyStrip s) text <;>
                simp [hb, hpeb] <;> first
                | rfl
                | (split <;> rfl)

theorem itemLenient_obj {ev : Json} (h : itemLenient ev = true) :
    ∃ kvs, ev = Json.obj kvs := by
  cases ev with
  | obj kvs => exact ⟨kvs, rfl⟩
  | null => simp [itemLenient] at h
  | bool b => simp [itemLenient] at h
  | num t => simp [itemLenient] at h
  | str s => simp [itemLenient] at h
  | arr l => simp [itemLenient] at h

theorem verifyEvs_lenient (root : FSNode) (evs : List Json)
    (h : evs.all itemLenient = true) :
    verifyEvs root evs = .ok (evs.map (specItemVerdict root)) := by
  induction evs with
  | nil => rfl
  | cons ev rest ih =>
    simp only [List.all_cons, Bool.and_eq_true] at h
    obtain ⟨h1, h2⟩ := h
    obtain ⟨kvs, hk⟩ := itemLenient_obj h1
    subst hk
    have hone := verifyOne_lenient root kvs h1
    unfold verifyEvs
    rw [hone, ih h2]
    rfl

theorem verifyCats_lenient (root : FSNode) (cats : List (List Char × Json))
    (h : cats.all (fun p => detailsWF p.2) = true) :
    verifyCats root cats = .ok (cats.map (fun p => (p.1, specDetails root p.2))) := by
  haveI : Nonempty (List Char × Json) := ⟨([], .null)⟩
  haveI : Nonempty (List (List Char × Json)) := ⟨[]⟩
  haveI : Nonempty Json := ⟨.null⟩
  induction cats with
  | nil => rfl
  | cons pd rest ih0 =>
    obtain ⟨cat, d⟩ := pd
    simp only [List.all_cons, Bool.and_eq_true] at h
    obtain ⟨h1, h2⟩ := h
    have ih := ih0 h2
    cases d with
    | obj dkvs =>
      simp only [detailsWF] at h1
      cases hev : (objGet dkvs (cs "evidence")).getD (.arr []) with
      | arr evs =>
        rw [hev] at h1
        have h1' : evs.all itemLenient = true := by simpa using h1
        simp only [verifyCats, hev, evidenceList]
        rw [verifyEvs_lenient root evs h1', ih]
        simp [specDetails, arrElems, hev]
      | null => rw [hev] at h1; simp at h1
      | bool b => rw [hev] at h1; simp at h1
      | num t => rw [hev] at h1; simp at h1
      | str s => rw [hev] at h1; simp at h1
      | obj l => rw [hev] at h1; simp at h1
    | null => simp [detailsWF] at h1
    | bool b => simp [detailsWF] at h1
    | num t => simp [detailsWF] at h1
    | str s => simp [detailsWF] at h1
    | arr l => simp [detailsWF] at h1

/-- C1 (amended): on every report shaped as the model-output contract
describes, the Verifier returns exactly the spec-worded annotation
`specVerify`: each item gets `verified` set to whether its cited path resolves
to a readable file whose text contains the trimmed non-empty snippet, and an
unverified item gets the fixed marker appended to its note — with the
combined string then stripped of surrounding whitespace, so leading
whitespace of an existing note is lost (the correction to the claim). -/
theorem C1_verifier_refines (root : FSNode) (report : Json)
    (h : reportWF report = true) :
    verify_evidence root report = .ok (specVerify root report) := by
  haveI : Nonempty (List Char × Json) := ⟨([], .null)⟩
  haveI : Nonempty (List (List Char × Json)) := ⟨[]⟩
  haveI : Nonempty Json := ⟨.null⟩
  cases report with
  | obj rkvs =>
    simp only [reportWF] at h
    cases hcs : (objGet rkvs (cs "criteria_scores")).getD (.obj []) with
    | obj cats =>
      rw [hcs] at h
      have h' : cats.all (fun p => detailsWF p.2) = true := by simpa using h
      simp only [verify_evidence, specVerify, hcs]
      rw [verifyCats_lenient root cats h']
    | null => rw [hcs] at h; simp at h
    | bool b => rw [hcs] at h; simp at h
    | num t => rw [hcs] at h; simp at h
    | str s => rw [hcs] at h; simp at h
    | arr l => rw [hcs] at h; simp at h
  | null => simp [reportWF] at h
  | bool b => simp [reportWF] at h
  | num t => simp [reportWF] at h
  | str s => simp [reportWF] at h
  | arr l => simp [reportWF] at h

/-- C1 witness: a one-category, one-item report against an empty project. -/
theorem C1_verifier_refines_witness :
    verify_evidence (FSNode.dir FSEntries.nil)
        (.obj [(cs "criteria_scores", .obj [(cs "q", .obj [(cs "evidence",
          .arr [.obj [(cs "path", .str (cs "a.py")), (cs "snippet", .str (cs "x")),
            (cs "note", .str (cs "n"))]])])])])
      = .ok (specVerify (FSNode.dir FSEntries.nil)
        (.obj [(cs "criteria_scores", .obj [(cs "q", .obj [(cs "evidence",
          .arr [.obj [(cs "path", .str (cs "a.py")), (cs "snippet", .str (cs "x")),
            (cs "note", .str (cs "n"))]])])])])) :=
  C1_verifier_refines (FSNode.dir FSEntries.nil)
    (.obj [(cs "criteria_scores", .obj [(cs "q", .obj [(cs "evidence",
      .arr [.obj [(cs "path", .str (cs "a.py")), (cs "snippet", .str (cs "x")),
        (cs "note", .str (cs "n"))]])])])]) (by decide)

/-- C1 counterexample: an unverified item whose existing note ` x` begins with
whitespace ends with note `x [EVIDENCE NOT FOUND]` — the final `.strip()`
discards the note's leading whitespace, so the existing note text is not
preserved intact as the claim states. -/
theorem C1_note_strip_counterexample :
    verify_evidence (FSNode.dir (entriesOf [(cs "f.py", .file 3 (some (cs "abc")))]))
        (.obj [(cs "criteria_scores", .obj [(cs "quality", .obj [(cs "evidence",
          .arr [.obj [(cs "path", .str (cs "f.py")), (cs "snippet", .str (cs "zzz")),
            (cs "note", .str (cs " x"))]])])])])
      = .ok (.obj [(cs "criteria_scores", .obj [(cs "quality", .obj [(cs "evidence",
          .arr [.obj [(cs "path", .str (cs "f.py")), (cs "snippet", .str (cs "zzz")),
            (cs "note", .str (cs "x [EVIDENCE NOT FOUND]")),
            (cs "verified", .bool false)]])])])]) ∧
    cs "x [EVIDENCE NOT FOUND]" ≠ cs " x" ++ NOT_FOUND_MARKER ∧
    containsSub (cs " x") (cs "x [EVIDENCE NOT FOUND]") = false :=
  ⟨rfl, by decide, by decide⟩

theorem specSnippetFound_empty (root : FSNode) (p : List Char) :
    specSnippetFound root p [] = false := by
  unfold specSnippetFound
  rcases hr : resolveFile root p with _ | ⟨sz, ct⟩
  · simp [hr]
  · rcases ct with _ | text
    · simp [hr]
    · simp [hr, pyStrip, pyStripLeft, pyStripRight]

/-- C10 (amended): the Verifier is total on lenient evidence items (dicts
whose `path`, `snippet` and `note` fields are strings where present): it never
raises, and an item with a missing or empty `path` or a missing `snippet` is
returned with `verified: false`, the not-found marker appended to its
(possibly missing, then empty) note, and the result stripped. The original
claim's missing-`note` case is corrected: such an item can still verify
`true` (see the counterexample), so only the path and snippet cases force the
unverified annotation. -/
theorem C10_verifier_total (root : FSNode) (kvs : List (List Char × Json))
    (h : itemLenient (.obj kvs) = true) :
    (∃ out, verifyOne root (.obj kvs) = .ok out) ∧
    (objGet kvs (cs "path") = none ∨ objGet kvs (cs "path") = some (.str []) ∨
        objGet kvs (cs "snippet") = none →
      verifyOne root (.obj kvs) = .ok (.obj (objInsert
        (objInsert kvs (cs "verified") (.bool false)) (cs "note")
        (.str (pyStrip (strD (objGet kvs (cs "note")) ++ NOT_FOUND_MARKER)))))) := by
  have hlen := verifyOne_lenient root kvs h
  refine ⟨⟨_, hlen⟩, fun hc => ?_⟩
  rw [hlen]
  have hv : specSnippetFound root (strD (objGet kvs (cs "path")))
      (strD (objGet kvs (cs "snippet"))) = false := by
    rcases hc with hc | hc | hc
    · simp [specSnippetFound, strD, hc]
    · simp [specSnippetFound, strD, hc]
    · rw [hc]
      exact specSnippetFound_empty root _
  have hnote : objGet (objInsert kvs (cs "verified") (.bool false)) (cs "note")
      = objGet kvs (cs "note") :=
    objGet_objInsert_ne kvs (.bool false) (by decide)
  simp [specItemVerdict, hv, hnote]

/-- C10 witness: an item holding only a snippet (no path, no note). -/
theorem C10_verifier_total_witness :
    verifyOne (FSNode.dir FSEntries.nil) (.obj [(cs "snippet", .str (cs "x"))])
      = .ok (.obj (objInsert
          (objInsert [(cs "snippet", .str (cs "x"))] (cs "verified") (.bool false))
          (cs "note")
          (.str (pyStrip (strD (objGet [(cs "snippet", .str (cs "x"))] (cs "note"))
            ++ NOT_FOUND_MARKER))))) :=
  (C10_verifier_total (FSNode.dir FSEntries.nil) [(cs "snippet", .str (cs "x"))]
    (by decide)).2 (Or.inl rfl)

/-- C10 counterexample: an item with no `note` key whose path and snippet
check out is returned `verified: true` with no note and no marker — the claim
said a missing `note` forces `verified: false` plus the marker. -/
theorem C10_missing_note_counterexample :
    verifyOne (FSNode.dir (entriesOf [(cs "f.py", .file 5 (some (cs "hello")))]))
        (.obj [(cs "path", .str (cs "f.py")), (cs "snippet", .str (cs "hello"))])
      = .ok (.obj [(cs "path", .str (cs "f.py")), (cs "snippet", .str (cs "hello")),
          (cs "verified", .bool true)]) ∧
    objGet [(cs "path", .str (cs "f.py")), (cs "snippet", .str (cs "hello")),
        (cs "verified", .bool true)] (cs "note") = none :=
  ⟨rfl, rfl⟩

end AiValidator
